import Mathlib

/-!
Verification of the on-disk storage format layer of the limbo
SQLite-compatible engine (`src/core/storage/sqlite3_ondisk.rs`), shallowly
embedded in Lean.

Machine integers are modelled as `Nat` with explicit reductions modulo `2^w`
wherever the Rust semantics truncate or wrap; bit masking with `0x7f` / `0xff`
is modelled as `% 128` / `% 256`, the bit-or with `0x80` of a 7-bit value as
`+ 128`, and the test `(c & 0x80) == 0` as `c / 128 % 2 = 0` — these agree
with the bitwise forms on all naturals in the positions where the source uses
them.  Fallible paths return explicit result types; a Rust panic (an
out-of-bounds slice index or a failed `assert!`) is an outcome distinct from
returning a `Corrupt` error.
-/

set_option maxRecDepth 4000

namespace Ondisk

def U64 : Nat := 2 ^ 64
def U32 : Nat := 2 ^ 32

/-! ## Varint codec (`read_varint` / `write_varint`) -/

/-- Outcome of `read_varint`: a decoded value with its byte count, a
`Corrupt("invalid varint")` error, or a panic.  The source loops over the
first eight bytes with the safe `buf.get(i)`, but after the loop it reads
`buf[8]` with a direct index, which panics when the buffer has exactly eight
bytes. -/
inductive VParse where
  | ok : Nat → Nat → VParse
  | corrupt : VParse
  | panicked : VParse
deriving DecidableEq, Repr

/-- The loop of `read_varint`.  `i` is the current byte index and the last
argument is the count of remaining loop iterations (`8 - i`); when the loop
finishes without meeting a byte whose high bit is clear, the source computes
`v = (v << 8) + buf[8]`, reading `buf[8]` by direct index. -/
def rv_go (buf : List Nat) : Nat → Nat → Nat → VParse
  | v, _, 0 =>
    match buf[8]? with
    | some c => .ok ((v * 256 + c) % U64) 9
    | none => .panicked
  | v, i, k + 1 =>
    match buf[i]? with
    | some c =>
      if c / 128 % 2 = 0 then .ok ((v * 128 + c % 128) % U64) (i + 1)
      else rv_go buf ((v * 128 + c % 128) % U64) (i + 1) k
    | none => .corrupt

def read_varint (buf : List Nat) : VParse :=
  rv_go buf 0 0 8

/-- The 9-byte branch of `write_varint`: after storing `value as u8` in
`buf[8]` and shifting by 8, the source fills `buf[7]` down to `buf[0]` with
7-bit groups carrying the continuation bit; the resulting list is most
significant group first. -/
def writeHigh : Nat → Nat → List Nat
  | 0, _ => []
  | k + 1, value => writeHigh k (value / 128) ++ [value % 128 + 128]

/-- The general loop of `write_varint`: emit 7-bit groups, least significant
first, each with the continuation bit set (`0x80 | (bytes & 0x7f)`).  The
first argument is fuel bounding the iteration count; the top-level call
passes the value itself, which always dominates the group count. -/
def encGroups : Nat → Nat → List Nat
  | 0, _ => []
  | fuel + 1, bytes =>
    if bytes = 0 then [] else (bytes % 128 + 128) :: encGroups fuel (bytes / 128)

/-- `encoded[0] &= 0x7f`: clear the continuation bit on the least significant
group (which becomes the last byte after the reversal). -/
def clearHeadGroup : List Nat → List Nat
  | [] => []
  | h :: t => h % 128 :: t

def write_varint (value : Nat) : List Nat :=
  if value ≤ 0x7f then [value % 128]
  else if value ≤ 0x3fff then [value / 128 % 128 + 128, value % 128]
  else if value / 2 ^ 56 % 256 ≠ 0 then
    writeHigh 8 (value / 256) ++ [value % 256]
  else
    (clearHeadGroup (encGroups value value)).reverse

/-! ### Varint proof infrastructure -/

/-- One decoding step: shift the accumulator by 7 bits and add a group. -/
def varintStep (a g : Nat) : Nat := a * 128 + g

/-- The value denoted by a list of 7-bit groups, most significant first. -/
def valMSB (gs : List Nat) : Nat := gs.foldl varintStep 0

/-- Base-128 digits of a value, least significant first; the first argument
is fuel dominating the digit count. -/
def digitsF : Nat → Nat → List Nat
  | 0, _ => []
  | f + 1, v => if v = 0 then [] else v % 128 :: digitsF f (v / 128)

/-- The `k` base-128 digits of `w` below `128 ^ k`, most significant first. -/
def padDigits : Nat → Nat → List Nat
  | 0, _ => []
  | k + 1, w => w / 128 ^ k % 128 :: padDigits k w

/-- Attach continuation bits to every group except the last. -/
def contBytes : List Nat → List Nat
  | [] => []
  | [g] => [g]
  | g :: t => (g + 128) :: contBytes t

theorem foldl_varintStep (gs : List Nat) :
    ∀ a : Nat, gs.foldl varintStep a = a * 128 ^ gs.length + valMSB gs := by
  induction gs with
  | nil => intro a; simp [valMSB]
  | cons g t ih =>
    intro a
    have h1 := ih (varintStep a g)
    have h2 := ih (varintStep 0 g)
    simp only [valMSB, List.foldl_cons, List.length_cons] at *
    rw [h1, h2, pow_succ]
    simp only [varintStep]
    ring

theorem foldl_varintStep_lt (gs : List Nat) :
    ∀ a : Nat, (∀ g ∈ gs, g < 128) → gs.foldl varintStep a < (a + 1) * 128 ^ gs.length := by
  induction gs with
  | nil => intro a _; simp
  | cons g t ih =>
    intro a hb
    have hg : g < 128 := hb g (List.mem_cons_self g t)
    have h1 := ih (varintStep a g) (fun x hx => hb x (List.mem_cons_of_mem _ hx))
    simp only [List.foldl_cons, List.length_cons]
    calc t.foldl varintStep (varintStep a g)
        < (varintStep a g + 1) * 128 ^ t.length := h1
      _ ≤ ((a + 1) * 128) * 128 ^ t.length := by
          apply Nat.mul_le_mul_right
          simp only [varintStep]; omega
      _ = (a + 1) * 128 ^ (t.length + 1) := by rw [pow_succ]; ring

theorem valMSB_lt (gs : List Nat) (hb : ∀ g ∈ gs, g < 128) :
    valMSB gs < 128 ^ gs.length := by
  have := foldl_varintStep_lt gs 0 hb
  simpa [valMSB] using this

theorem contBytes_append (t : List Nat) (x : Nat) :
    contBytes (t ++ [x]) = t.map (· + 128) ++ [x] := by
  induction t with
  | nil => simp [contBytes]
  | cons g t2 ih =>
    cases t2 with
    | nil => simp [contBytes]
    | cons b t3 =>
      have h1 : contBytes ((g :: b :: t3) ++ [x])
          = (g + 128) :: contBytes ((b :: t3) ++ [x]) := rfl
      rw [h1, ih]
      simp

/-- Reading a continuation-encoded group list `gs` placed at index `i` of the
buffer accumulates exactly its value on top of the accumulator. -/
theorem rv_go_cont :
    ∀ (gs L rest : List Nat) (i k acc : Nat),
      gs ≠ [] → (∀ g ∈ gs, g < 128) → gs.length ≤ k → i + k = 8 →
      acc < 2 ^ (7 * i) → L.drop i = contBytes gs ++ rest →
      rv_go L acc i k = .ok (acc * 128 ^ gs.length + valMSB gs) (i + gs.length) := by
  intro gs
  induction gs with
  | nil => intro L rest i k acc hne; exact absurd rfl hne
  | cons g t ih =>
    intro L rest i k acc _ hb hlen hik hacc hdrop
    have hg : g < 128 := hb g (List.mem_cons_self g t)
    have hi7 : i ≤ 7 := by
      by_contra h
      have : k = 0 := by omega
      subst this
      simp at hlen
    have hstep : acc * 128 + g < 2 ^ (7 * i) * 128 :=
      calc acc * 128 + g < (acc + 1) * 128 := by omega
        _ ≤ 2 ^ (7 * i) * 128 := Nat.mul_le_mul_right _ hacc
    have hbound : acc * 128 + g < U64 := by
      show acc * 128 + g < 2 ^ 64
      have h2 : (2 : Nat) ^ (7 * i) * 128 ≤ 2 ^ 64 := by
        have h3 : (2 : Nat) ^ (7 * i) * 128 = 2 ^ (7 * i + 7) := by
          rw [pow_add]; norm_num
        rw [h3]
        exact Nat.pow_le_pow_right (by norm_num) (by omega)
      omega
    obtain ⟨k', rfl⟩ : ∃ k', k = k' + 1 := by
      cases k with
      | zero => exact absurd hlen (by simp)
      | succ k' => exact ⟨k', rfl⟩
    cases t with
    | nil =>
      -- single terminating group: the byte is g itself, high bit clear
      have hgi : L[i]? = some g := by
        have h0 := List.getElem?_drop L i 0
        rw [hdrop] at h0
        simpa [contBytes] using h0.symm
      have hmod : (acc * 128 + g % 128) % U64 = acc * 128 + g := by
        rw [Nat.mod_eq_of_lt hg, Nat.mod_eq_of_lt hbound]
      simp only [rv_go, hgi]
      have hdiv : g / 128 % 2 = 0 := by omega
      simp [hdiv, hmod, valMSB, varintStep]
    | cons g2 t2 =>
      -- continuation byte g + 128, then recurse on the tail
      have hgi : L[i]? = some (g + 128) := by
        have h0 := List.getElem?_drop L i 0
        rw [hdrop] at h0
        simpa [contBytes] using h0.symm
      have hdrop' : L.drop (i + 1) = contBytes (g2 :: t2) ++ rest := by
        have h1 : L.drop (i + 1) = (L.drop i).drop 1 := by
          rw [List.drop_drop]
        rw [h1, hdrop]
        rfl
      have hmod : (acc * 128 + (g + 128) % 128) % U64 = acc * 128 + g := by
        have h1 : (g + 128) % 128 = g := by omega
        rw [h1, Nat.mod_eq_of_lt hbound]
      have hdiv : ¬((g + 128) / 128 % 2 = 0) := by omega
      have hlen' : (g2 :: t2).length ≤ k' := by
        simp only [List.length_cons] at hlen ⊢
        omega
      have hacc' : acc * 128 + g < 2 ^ (7 * (i + 1)) := by
        have h1 : (2 : Nat) ^ (7 * (i + 1)) = 2 ^ (7 * i) * 128 := by
          rw [Nat.mul_add, pow_add]; norm_num
        rw [h1]
        exact hstep
      have hrec := ih L rest (i + 1) k' (acc * 128 + g) (by simp)
        (fun x hx => hb x (List.mem_cons_of_mem _ hx))
        hlen' (by omega) hacc' hdrop'
      simp only [rv_go, hgi]
      rw [if_neg hdiv, hmod, hrec]
      have hv : valMSB (g :: g2 :: t2)
          = g * 128 ^ (g2 :: t2).length + valMSB (g2 :: t2) := by
        show (g :: g2 :: t2).foldl varintStep 0 = _
        rw [List.foldl_cons, foldl_varintStep (g2 :: t2) (varintStep 0 g)]
        simp [varintStep, valMSB]
      congr 1
      · rw [hv]
        simp only [List.length_cons]
        ring
      · simp only [List.length_cons]
        omega

/-- Reading eight continuation bytes carrying the `k` most significant 7-bit
groups of `w` drives the loop to its end, where the source reads `buf[8]` by
direct index: out of bounds means a panic, otherwise the final byte carries a
full 8 bits. -/
theorem rv_go_high :
    ∀ (k w : Nat) (L rest : List Nat) (i acc : Nat),
      1 ≤ k → i + k = 8 → acc < 2 ^ (7 * i) →
      L.drop i = (padDigits k w).map (· + 128) ++ rest →
      rv_go L acc i k =
        (match L[8]? with
         | some c => .ok (((acc * 128 ^ k + w % 128 ^ k) * 256 + c) % U64) 9
         | none => .panicked) := by
  intro k
  induction k with
  | zero => intro w L rest i acc h1; exact absurd h1 (by omega)
  | succ k ih =>
    intro w L rest i acc _ hik hacc hdrop
    have hi7 : i ≤ 7 := by omega
    set d : Nat := w / 128 ^ k % 128 with hd
    have hdlt : d < 128 := Nat.mod_lt _ (by norm_num)
    have hgi : L[i]? = some (d + 128) := by
      have h0 := List.getElem?_drop L i 0
      rw [hdrop] at h0
      simpa [padDigits] using h0.symm
    have hstep : acc * 128 + d < 2 ^ (7 * i) * 128 :=
      calc acc * 128 + d < (acc + 1) * 128 := by omega
        _ ≤ 2 ^ (7 * i) * 128 := Nat.mul_le_mul_right _ hacc
    have hacc' : acc * 128 + d < 2 ^ (7 * (i + 1)) := by
      have h1 : (2 : Nat) ^ (7 * (i + 1)) = 2 ^ (7 * i) * 128 := by
        rw [Nat.mul_add, pow_add]; norm_num
      rw [h1]; exact hstep
    have hbound : acc * 128 + d < U64 := by
      show acc * 128 + d < 2 ^ 64
      have h2 : (2 : Nat) ^ (7 * i) * 128 ≤ 2 ^ 64 := by
        have h3 : (2 : Nat) ^ (7 * i) * 128 = 2 ^ (7 * i + 7) := by
          rw [pow_add]; norm_num
        rw [h3]
        exact Nat.pow_le_pow_right (by norm_num) (by omega)
      omega
    have hmod : (acc * 128 + (d + 128) % 128) % U64 = acc * 128 + d := by
      have h1 : (d + 128) % 128 = d := by omega
      rw [h1, Nat.mod_eq_of_lt hbound]
    have hdiv : ¬((d + 128) / 128 % 2 = 0) := by omega
    simp only [rv_go, hgi]
    rw [if_neg hdiv, hmod]
    cases k with
    | zero =>
      -- last continuation byte processed: the loop is exhausted, the source
      -- reads buf[8] directly
      have h8 : i = 7 := by omega
      subst h8
      simp only [rv_go]
      have hdw : d = w % 128 := by rw [hd]; norm_num
      cases hL8 : L[8]? with
      | none => rfl
      | some c =>
        norm_num [hdw]
    | succ k' =>
      have hdrop' : L.drop (i + 1) = (padDigits (k' + 1) w).map (· + 128) ++ rest := by
        have h1 : L.drop (i + 1) = (L.drop i).drop 1 := by rw [List.drop_drop]
        rw [h1, hdrop]
        simp [padDigits]
      rw [ih w L rest (i + 1) (acc * 128 + d) (by omega) (by omega) hacc' hdrop']
      cases hL8 : L[8]? with
      | none => rfl
      | some c =>
        simp only []
        have hsplit : w % 128 ^ (k' + 1 + 1)
            = w % 128 ^ (k' + 1) + 128 ^ (k' + 1) * d := by
          have h1 : (128 : Nat) ^ (k' + 1 + 1) = 128 ^ (k' + 1) * 128 := by
            rw [pow_succ]
          rw [h1, Nat.mod_mul]
        have heq : (acc * 128 + d) * 128 ^ (k' + 1) + w % 128 ^ (k' + 1)
            = acc * 128 ^ (k' + 1 + 1) + w % 128 ^ (k' + 1 + 1) := by
          rw [hsplit]; ring
        rw [heq]

theorem padDigits_length (k : Nat) : ∀ w, (padDigits k w).length = k := by
  induction k with
  | zero => intro w; rfl
  | succ k ih => intro w; simp [padDigits, ih]

theorem padDigits_snoc (k : Nat) :
    ∀ w, padDigits (k + 1) w = padDigits k (w / 128) ++ [w % 128] := by
  induction k with
  | zero => intro w; simp [padDigits]
  | succ k ih =>
    intro w
    have h1 : (w / 128) / 128 ^ k = w / 128 ^ (k + 1) := by
      rw [Nat.div_div_eq_div_mul, ← pow_succ']
    calc padDigits (k + 1 + 1) w
        = w / 128 ^ (k + 1) % 128 :: padDigits (k + 1) w := rfl
      _ = w / 128 ^ (k + 1) % 128 :: (padDigits k (w / 128) ++ [w % 128]) := by rw [ih]
      _ = padDigits (k + 1) (w / 128) ++ [w % 128] := by
          simp [padDigits, h1]

theorem writeHigh_eq (k : Nat) :
    ∀ w, writeHigh k w = (padDigits k w).map (· + 128) := by
  induction k with
  | zero => intro w; rfl
  | succ k ih =>
    intro w
    rw [show writeHigh (k + 1) w = writeHigh k (w / 128) ++ [w % 128 + 128] from rfl,
      ih, padDigits_snoc]
    simp

theorem encGroups_eq_digits (f : Nat) :
    ∀ v, encGroups f v = (digitsF f v).map (· + 128) := by
  induction f with
  | zero => intro v; rfl
  | succ f ih =>
    intro v
    by_cases h : v = 0 <;> simp [encGroups, digitsF, h, ih]

theorem digitsF_lt (f : Nat) : ∀ v g, g ∈ digitsF f v → g < 128 := by
  induction f with
  | zero => intro v g h; simp [digitsF] at h
  | succ f ih =>
    intro v g h
    by_cases hv : v = 0
    · simp [digitsF, hv] at h
    · simp only [digitsF, if_neg hv, List.mem_cons] at h
      rcases h with h | h
      · subst h; exact Nat.mod_lt _ (by norm_num)
      · exact ih _ _ h

theorem digitsF_length_le (f : Nat) :
    ∀ n v, v < 128 ^ n → n ≤ f → (digitsF f v).length ≤ n := by
  induction f with
  | zero => intro n v _ _; simp [digitsF]
  | succ f ih =>
    intro n v hvn _
    by_cases hv : v = 0
    · simp [digitsF, hv]
    · obtain ⟨n', rfl⟩ : ∃ n', n = n' + 1 := by
        cases n with
        | zero => simp at hvn; omega
        | succ n' => exact ⟨n', rfl⟩
      simp only [digitsF, if_neg hv, List.length_cons]
      have hdiv : v / 128 < 128 ^ n' := by
        rw [Nat.div_lt_iff_lt_mul (by norm_num : (0 : Nat) < 128)]
        calc v < 128 ^ (n' + 1) := hvn
          _ = 128 ^ n' * 128 := by rw [pow_succ]
      have := ih n' (v / 128) hdiv (by omega)
      omega

theorem digitsF_ne_nil (f v : Nat) (hv : v ≠ 0) (hf : 1 ≤ f) : digitsF f v ≠ [] := by
  obtain ⟨f', rfl⟩ : ∃ f', f = f' + 1 := ⟨f - 1, by omega⟩
  simp [digitsF, hv]

theorem digitsF_val (f : Nat) :
    ∀ v, v < 128 ^ f → valMSB ((digitsF f v).reverse) = v := by
  induction f with
  | zero =>
    intro v hv
    simp only [pow_zero, Nat.lt_one_iff] at hv
    subst hv
    rfl
  | succ f ih =>
    intro v hv
    by_cases hz : v = 0
    · subst hz; rfl
    · simp only [digitsF, if_neg hz, List.reverse_cons]
      have hdiv : v / 128 < 128 ^ f := by
        rw [Nat.div_lt_iff_lt_mul (by norm_num : (0 : Nat) < 128)]
        calc v < 128 ^ (f + 1) := hv
          _ = 128 ^ f * 128 := by rw [pow_succ]
      have := ih (v / 128) hdiv
      simp only [valMSB, List.foldl_append, List.foldl_cons, List.foldl_nil] at this ⊢
      rw [this]
      simp only [varintStep]
      omega

theorem clearHeadGroup_length (l : List Nat) :
    (clearHeadGroup l).length = l.length := by
  cases l <;> simp [clearHeadGroup]

/-- The general-loop branch of `write_varint` emits exactly the reversed
base-128 digit sequence with continuation bits on all but the last byte. -/
theorem write_middle_eq (v : Nat) (hv : v ≠ 0) :
    (clearHeadGroup (encGroups v v)).reverse = contBytes ((digitsF v v).reverse) := by
  obtain ⟨f, hf⟩ : ∃ f, v = f + 1 := ⟨v - 1, by omega⟩
  have hds : digitsF v v = v % 128 :: digitsF f (v / 128) := by
    conv_lhs => rw [hf]
    simp only [digitsF, if_neg (by omega : ¬f + 1 = 0)]
    rw [← hf]
  rw [encGroups_eq_digits, hds]
  simp only [List.map_cons, clearHeadGroup]
  have h1 : (v % 128 + 128) % 128 = v % 128 := by omega
  rw [h1, List.reverse_cons, List.reverse_cons, contBytes_append]
  simp

theorem contBytes_length : ∀ l : List Nat, (contBytes l).length = l.length := by
  intro l
  induction l with
  | nil => rfl
  | cons g t ih =>
    cases t with
    | nil => rfl
    | cons b t2 =>
      rw [show contBytes (g :: b :: t2) = (g + 128) :: contBytes (b :: t2) from rfl]
      simp only [List.length_cons]
      rw [ih]
      simp

theorem write_varint_le7f (v : Nat) (h : v ≤ 0x7f) : write_varint v = [v] := by
  unfold write_varint
  rw [if_pos h, Nat.mod_eq_of_lt (by omega : v < 128)]

theorem write_varint_two (v : Nat) (h1 : 0x7f < v) (h2 : v ≤ 0x3fff) :
    write_varint v = [v / 128 + 128, v % 128] := by
  unfold write_varint
  rw [if_neg (by omega), if_pos h2, Nat.mod_eq_of_lt (by omega : v / 128 < 128)]

theorem write_varint_nine (v : Nat) (h1 : 2 ^ 56 ≤ v) (h2 : v < 2 ^ 64) :
    write_varint v = (padDigits 8 (v / 256)).map (· + 128) ++ [v % 256] := by
  have hle : (0x3fff : Nat) < v := by
    have : (2 : Nat) ^ 56 > 0x3fff := by norm_num
    omega
  have hc : v / 2 ^ 56 % 256 ≠ 0 := by
    have ha : 1 ≤ v / 2 ^ 56 := Nat.one_le_div_iff (by norm_num) |>.mpr h1
    have hb : v / 2 ^ 56 < 256 := by
      rw [Nat.div_lt_iff_lt_mul (by norm_num : (0 : Nat) < 2 ^ 56)]
      calc v < 2 ^ 64 := h2
        _ = 2 ^ 56 * 256 := by norm_num
    omega
  unfold write_varint
  rw [if_neg (by omega), if_neg (by omega), if_pos hc, writeHigh_eq]

theorem write_varint_mid (v : Nat) (h1 : 0x3fff < v) (h2 : v < 2 ^ 56) :
    write_varint v = contBytes ((digitsF v v).reverse) := by
  have hc : ¬(v / 2 ^ 56 % 256 ≠ 0) := by
    rw [Nat.div_eq_of_lt h2]
    simp
  unfold write_varint
  rw [if_neg (by omega), if_neg (by omega), if_neg hc, write_middle_eq v (by omega)]

theorem read_write_le7f (v : Nat) (h : v ≤ 0x7f) :
    read_varint (write_varint v) = .ok v 1 := by
  rw [write_varint_le7f v h]
  have hr := rv_go_cont [v] [v] [] 0 8 0 (by simp)
    (by intro g hg; simp at hg; omega) (by simp) rfl (by norm_num)
    (by simp [contBytes])
  rw [read_varint, hr]
  simp [valMSB, varintStep]

theorem read_write_two (v : Nat) (h1 : 0x7f < v) (h2 : v ≤ 0x3fff) :
    read_varint (write_varint v) = .ok v 2 := by
  rw [write_varint_two v h1 h2]
  have hr := rv_go_cont [v / 128, v % 128] [v / 128 + 128, v % 128] [] 0 8 0
    (by simp)
    (by
      intro g hg
      simp only [List.mem_cons, List.not_mem_nil, or_false] at hg
      rcases hg with h | h <;> omega)
    (by simp) rfl (by norm_num)
    (by rw [show contBytes [v / 128, v % 128] = [v / 128 + 128, v % 128] from rfl]; simp)
  rw [read_varint, hr]
  have hval : valMSB [v / 128, v % 128] = v := by
    simp only [valMSB, List.foldl_cons, List.foldl_nil, varintStep]
    omega
  rw [hval]
  simp

theorem read_write_nine (v : Nat) (h1 : 2 ^ 56 ≤ v) (h2 : v < 2 ^ 64) :
    read_varint (write_varint v) = .ok v 9 := by
  rw [write_varint_nine v h1 h2]
  have hlenA : ((padDigits 8 (v / 256)).map (· + 128)).length = 8 := by
    simp [padDigits_length]
  have h8 : ((padDigits 8 (v / 256)).map (· + 128) ++ [v % 256])[8]? = some (v % 256) := by
    rw [← hlenA]
    exact List.getElem?_concat_length _ _
  have hr := rv_go_high 8 (v / 256)
    ((padDigits 8 (v / 256)).map (· + 128) ++ [v % 256]) [v % 256] 0 0
    (by norm_num) (by norm_num) (by norm_num) (by simp)
  rw [read_varint, hr, h8]
  have hmod : v / 256 % 128 ^ 8 = v / 256 := by
    apply Nat.mod_eq_of_lt
    rw [show (128 : Nat) ^ 8 = 2 ^ 56 from by norm_num,
      Nat.div_lt_iff_lt_mul (by norm_num : (0 : Nat) < 256)]
    calc v < 2 ^ 64 := h2
      _ = 2 ^ 56 * 256 := by norm_num
  have hfin : ((0 * 128 ^ 8 + v / 256 % 128 ^ 8) * 256 + v % 256) % U64 = v := by
    rw [hmod]
    have hdm : v / 256 * 256 + v % 256 = v := by omega
    have : (0 * 128 ^ 8 + v / 256) * 256 + v % 256 = v := by
      rw [Nat.zero_mul, Nat.zero_add]
      exact hdm
    rw [this]
    show v % 2 ^ 64 = v
    exact Nat.mod_eq_of_lt h2
  simp only [hfin]

theorem read_write_mid (v : Nat) (h1 : 0x3fff < v) (h2 : v < 2 ^ 56) :
    read_varint (write_varint v) = .ok v (digitsF v v).length := by
  rw [write_varint_mid v h1 h2]
  have hne : (digitsF v v).reverse ≠ [] := by
    simp only [ne_eq, List.reverse_eq_nil_iff]
    exact digitsF_ne_nil v v (by omega) (by omega)
  have hlt : ∀ g ∈ (digitsF v v).reverse, g < 128 := by
    intro g hg
    exact digitsF_lt v v g (List.mem_reverse.mp hg)
  have hlen : (digitsF v v).reverse.length ≤ 8 := by
    rw [List.length_reverse]
    apply digitsF_length_le v 8 v ?_ (by omega)
    rw [show (128 : Nat) ^ 8 = 2 ^ 56 from by norm_num]
    exact h2
  have hr := rv_go_cont ((digitsF v v).reverse) (contBytes ((digitsF v v).reverse)) []
    0 8 0 hne hlt hlen rfl (by norm_num) (by simp)
  rw [read_varint, hr]
  have hval : valMSB ((digitsF v v).reverse) = v :=
    digitsF_val v v (Nat.lt_pow_self (by norm_num) v)
  rw [hval]
  simp

/-- C1: for every `v` in `[0, 2^64)`, `read_varint` applied to the bytes
produced by `write_varint v` returns `(v, n)` where `n` is exactly the number
of bytes `write_varint` wrote, `n ≤ 9`, and the encoding is length-minimal:
1 byte when `v ≤ 0x7F`, 2 bytes when `0x7F < v ≤ 0x3FFF`, and 9 bytes (the
last byte carrying a full 8 bits) exactly when bit 56 or higher of `v` is
set. -/
theorem C1_varint_roundtrip (v : Nat) (hv : v < 2 ^ 64) :
    read_varint (write_varint v) = .ok v (write_varint v).length ∧
    (write_varint v).length ≤ 9 ∧
    (v ≤ 0x7f → (write_varint v).length = 1) ∧
    (0x7f < v → v ≤ 0x3fff → (write_varint v).length = 2) ∧
    ((write_varint v).length = 9 ↔ 2 ^ 56 ≤ v) ∧
    (2 ^ 56 ≤ v → (write_varint v).getLast? = some (v % 256)) := by
  have hbig : (0x3fff : Nat) < 2 ^ 56 := by norm_num
  by_cases h1 : v ≤ 0x7f
  · have hw := write_varint_le7f v h1
    have hl : (write_varint v).length = 1 := by rw [hw]; rfl
    refine ⟨?_, by omega, fun _ => hl, fun h _ => absurd h1 (by omega), ?_, ?_⟩
    · rw [read_write_le7f v h1, hl]
    · constructor
      · intro h; omega
      · intro h; omega
    · intro h; omega
  · by_cases h2 : v ≤ 0x3fff
    · have hw := write_varint_two v (by omega) h2
      have hl : (write_varint v).length = 2 := by rw [hw]; rfl
      refine ⟨?_, by omega, fun h => absurd h h1, fun _ _ => hl, ?_, ?_⟩
      · rw [read_write_two v (by omega) h2, hl]
      · constructor
        · intro h; omega
        · intro h; omega
      · intro h; omega
    · by_cases h3 : 2 ^ 56 ≤ v
      · have hw := write_varint_nine v h3 hv
        have hl : (write_varint v).length = 9 := by
          rw [hw]
          simp [padDigits_length]
        refine ⟨?_, by omega, fun h => absurd h h1, fun _ h => absurd h h2,
          ⟨fun _ => h3, fun _ => hl⟩, ?_⟩
        · rw [read_write_nine v h3 hv, hl]
        · intro _
          rw [hw]
          exact List.getLast?_concat _
      · have h2' : 0x3fff < v := by omega
        have h3' : v < 2 ^ 56 := by omega
        have hw := write_varint_mid v h2' h3'
        have hl : (write_varint v).length = (digitsF v v).length := by
          rw [hw, contBytes_length, List.length_reverse]
        have hdlen : (digitsF v v).length ≤ 8 := by
          apply digitsF_length_le v 8 v ?_ (by omega)
          rw [show (128 : Nat) ^ 8 = 2 ^ 56 from by norm_num]
          exact h3'
        refine ⟨?_, by omega, fun h => absurd h h1, fun _ h => absurd h h2, ?_, ?_⟩
        · rw [read_write_mid v h2' h3', hl]
        · constructor
          · intro h; omega
          · intro h; omega
        · intro h; omega

/-- Witness for C1 at the concrete inputs 300 and `2^60`. -/
theorem C1_varint_roundtrip_witness :
    (read_varint (write_varint 300) = .ok 300 (write_varint 300).length ∧
      (write_varint 300).length ≤ 9 ∧
      ((300 : Nat) ≤ 0x7f → (write_varint 300).length = 1) ∧
      ((0x7f : Nat) < 300 → (300 : Nat) ≤ 0x3fff → (write_varint 300).length = 2) ∧
      ((write_varint 300).length = 9 ↔ 2 ^ 56 ≤ 300) ∧
      (2 ^ 56 ≤ (300 : Nat) → (write_varint 300).getLast? = some (300 % 256))) ∧
    (read_varint (write_varint (2 ^ 60)) = .ok (2 ^ 60) (write_varint (2 ^ 60)).length ∧
      (write_varint (2 ^ 60)).length ≤ 9 ∧
      ((2 : Nat) ^ 60 ≤ 0x7f → (write_varint (2 ^ 60)).length = 1) ∧
      ((0x7f : Nat) < 2 ^ 60 → (2 : Nat) ^ 60 ≤ 0x3fff → (write_varint (2 ^ 60)).length = 2) ∧
      ((write_varint (2 ^ 60)).length = 9 ↔ 2 ^ 56 ≤ 2 ^ 60) ∧
      (2 ^ 56 ≤ (2 : Nat) ^ 60 → (write_varint (2 ^ 60)).getLast? = some (2 ^ 60 % 256))) :=
  ⟨C1_varint_roundtrip 300 (by norm_num), C1_varint_roundtrip (2 ^ 60) (by norm_num)⟩

/-- C7: the claim states that whenever the buffer ends before a varint is
complete, `read_varint` returns `Corrupt("invalid varint")` rather than
panicking.  The code does return Corrupt for buffers of up to seven
continuation bytes, but on a buffer of exactly eight bytes each with the high
bit set the source's direct index `buf[8]` is out of bounds: the code
panics. -/
theorem C7_varint_eight_continuation_panics :
    read_varint (List.replicate 8 0x80) = .panicked ∧
    read_varint (List.replicate 7 0x80) = .corrupt ∧
    VParse.panicked ≠ VParse.corrupt := by
  refine ⟨by decide, by decide, by decide⟩

/-! ## Overflow threshold (`payload_overflows`) -/

/-- `payload_overflows` from the source: decides whether a payload spills to
overflow pages and, if so, how many bytes (including the 4-byte pointer to
the first overflow page) stay in the cell. -/
def payload_overflows (payload_size payload_overflow_threshold_max
    payload_overflow_threshold_min usable_size : Nat) : Bool × Nat :=
  if payload_size ≤ payload_overflow_threshold_max then (false, 0)
  else
    let space_left := payload_overflow_threshold_min +
      (payload_size - payload_overflow_threshold_min) % (usable_size - 4)
    let space_left2 :=
      if space_left > payload_overflow_threshold_max
      then payload_overflow_threshold_min else space_left
    (true, space_left2 + 4)

/-- C2: for payload size `P` and thresholds `M_min ≤ M_max < U - 4`,
`payload_overflows` returns `(false, 0)` iff `P ≤ M_max`; otherwise it
returns `(true, local + 4)` where `local = M_min + (P − M_min) mod (U − 4)`,
clamped to `M_min` when that value exceeds `M_max`, and the inline byte
count satisfies `local ≤ M_max`.  (The hypothesis `M_max < U − 4` also rules
out a zero divisor, where the Rust `%` would panic.) -/
theorem C2_payload_overflows (P mx mn U : Nat) (hmn : mn ≤ mx) (_hmx : mx < U - 4) :
    (payload_overflows P mx mn U = (false, 0) ↔ P ≤ mx) ∧
    (mx < P →
      payload_overflows P mx mn U =
        (true, (if mx < mn + (P - mn) % (U - 4) then mn
                else mn + (P - mn) % (U - 4)) + 4) ∧
      (if mx < mn + (P - mn) % (U - 4) then mn
       else mn + (P - mn) % (U - 4)) ≤ mx) := by
  by_cases hP : P ≤ mx
  · refine ⟨⟨fun _ => hP, fun _ => ?_⟩, fun h => absurd hP (by omega)⟩
    simp [payload_overflows, hP]
  · have hcomp : payload_overflows P mx mn U =
        (true, (if mx < mn + (P - mn) % (U - 4) then mn
                else mn + (P - mn) % (U - 4)) + 4) := by
      unfold payload_overflows
      rw [if_neg hP]
    refine ⟨⟨fun h => ?_, fun h => absurd h hP⟩, fun _ => ⟨hcomp, ?_⟩⟩
    · rw [hcomp] at h
      exact absurd (congrArg Prod.fst h) (by simp)
    · split
      · exact hmn
      · omega

/-- Witness for C2 at `P = 10`, `M_max = 5`, `M_min = 3`, `U = 20`. -/
theorem C2_payload_overflows_witness :
    (payload_overflows 10 5 3 20 = (false, 0) ↔ (10 : Nat) ≤ 5) ∧
    ((5 : Nat) < 10 →
      payload_overflows 10 5 3 20 =
        (true, (if (5 : Nat) < 3 + (10 - 3) % (20 - 4) then 3
                else 3 + (10 - 3) % (20 - 4)) + 4) ∧
      (if (5 : Nat) < 3 + (10 - 3) % (20 - 4) then 3
       else 3 + (10 - 3) % (20 - 4)) ≤ 5) :=
  C2_payload_overflows 10 5 3 20 (by norm_num) (by norm_num)
/-! ## Serial types and `read_value` -/

/-- `SerialTypeExt::is_blob`: even tags `≥ 12`. -/
def is_blob (t : Nat) : Bool := 12 ≤ t && t % 2 == 0

/-- `SerialTypeExt::is_string`: odd tags `≥ 13`. -/
def is_string (t : Nat) : Bool := 13 ≤ t && t % 2 == 1

def blob_size (t : Nat) : Nat := (t - 12) / 2

def string_size (t : Nat) : Nat := (t - 13) / 2

/-- `SerialTypeExt::is_valid`: `t ≤ 9` or a blob or string tag. -/
def is_valid (t : Nat) : Bool := t ≤ 9 || is_blob t || is_string t

/-- Decoded record values.  Floats carry their raw big-endian 64-bit pattern
(no claim needs IEEE semantics); blob and text values carry the referenced
bytes (the source returns zero-copy views into the buffer; a zero-length
view with a null data pointer is the empty list here). -/
inductive RefValue where
  | Null
  | Integer (i : Int)
  | Float (bits : Nat)
  | Blob (bytes : List Nat)
  | Text (bytes : List Nat)
deriving DecidableEq, Repr

/-- Outcome of `read_value`: a value plus the number of bytes consumed, or a
`Corrupt` error.  Every buffer access in `read_value` is length-checked, so
no panic outcome is needed. -/
inductive RValue where
  | ok : RefValue → Nat → RValue
  | corrupt : RValue
deriving DecidableEq, Repr

/-- Interpret `n` (assumed `< 2 ^ bits`) as a two's-complement signed
integer, mirroring Rust's `iN::from_be_bytes` reassembly. -/
def toSigned (bits n : Nat) : Int :=
  if n < 2 ^ (bits - 1) then (n : Int) else (n : Int) - 2 ^ bits

/-- `read_value` from the source: decode one value of the given serial type
from the front of `buf`, returning the value and the bytes consumed. -/
def read_value (buf : List Nat) (serial_type : Nat) : RValue :=
  if serial_type = 0 then .ok .Null 0
  else if serial_type = 1 then
    if buf.length < 1 then .corrupt
    else .ok (.Integer (toSigned 8 (buf.getD 0 0))) 1
  else if serial_type = 2 then
    if buf.length < 2 then .corrupt
    else .ok (.Integer (toSigned 16 (buf.getD 0 0 * 2 ^ 8 + buf.getD 1 0))) 2
  else if serial_type = 3 then
    if buf.length < 3 then .corrupt
    else
      let sign_extension : Nat := if buf.getD 0 0 ≤ 127 then 0 else 255
      .ok (.Integer (toSigned 32 (sign_extension * 2 ^ 24 + buf.getD 0 0 * 2 ^ 16 +
        buf.getD 1 0 * 2 ^ 8 + buf.getD 2 0))) 3
  else if serial_type = 4 then
    if buf.length < 4 then .corrupt
    else .ok (.Integer (toSigned 32 (buf.getD 0 0 * 2 ^ 24 + buf.getD 1 0 * 2 ^ 16 +
      buf.getD 2 0 * 2 ^ 8 + buf.getD 3 0))) 4
  else if serial_type = 5 then
    if buf.length < 6 then .corrupt
    else
      let sign_extension : Nat := if buf.getD 0 0 ≤ 127 then 0 else 255
      .ok (.Integer (toSigned 64 (sign_extension * 2 ^ 56 + sign_extension * 2 ^ 48 +
        buf.getD 0 0 * 2 ^ 40 + buf.getD 1 0 * 2 ^ 32 + buf.getD 2 0 * 2 ^ 24 +
        buf.getD 3 0 * 2 ^ 16 + buf.getD 4 0 * 2 ^ 8 + buf.getD 5 0))) 6
  else if serial_type = 6 then
    if buf.length < 8 then .corrupt
    else .ok (.Integer (toSigned 64 (buf.getD 0 0 * 2 ^ 56 + buf.getD 1 0 * 2 ^ 48 +
      buf.getD 2 0 * 2 ^ 40 + buf.getD 3 0 * 2 ^ 32 + buf.getD 4 0 * 2 ^ 24 +
      buf.getD 5 0 * 2 ^ 16 + buf.getD 6 0 * 2 ^ 8 + buf.getD 7 0))) 8
  else if serial_type = 7 then
    if buf.length < 8 then .corrupt
    else .ok (.Float (buf.getD 0 0 * 2 ^ 56 + buf.getD 1 0 * 2 ^ 48 +
      buf.getD 2 0 * 2 ^ 40 + buf.getD 3 0 * 2 ^ 32 + buf.getD 4 0 * 2 ^ 24 +
      buf.getD 5 0 * 2 ^ 16 + buf.getD 6 0 * 2 ^ 8 + buf.getD 7 0)) 8
  else if serial_type = 8 then .ok (.Integer 0) 0
  else if serial_type = 9 then .ok (.Integer 1) 0
  else if is_blob serial_type then
    let n := blob_size serial_type
    if buf.length < n then .corrupt
    else .ok (.Blob (buf.take n)) n
  else if is_string serial_type then
    let n := string_size serial_type
    if buf.length < n then .corrupt
    else .ok (.Text (buf.take n)) n
  else .corrupt

/-- C9: `read_value` conforms to the serial-type table at the boundary
cases: with tag 3 the bytes `[0x80, 0x00, 0x00]` decode to `-8388608` and
`[0x7f, 0xff, 0xff]` decode to `8388607` (big-endian 24-bit with sign
extension, consuming 3 bytes), and tags 8 and 9 consume 0 bytes and yield
the integers 0 and 1 respectively, for every input buffer. -/
theorem C9_read_value_boundaries :
    (∀ rest : List Nat,
      read_value (0x80 :: 0x00 :: 0x00 :: rest) 3 = .ok (.Integer (-8388608)) 3) ∧
    (∀ rest : List Nat,
      read_value (0x7f :: 0xff :: 0xff :: rest) 3 = .ok (.Integer 8388607) 3) ∧
    (∀ buf : List Nat, read_value buf 8 = .ok (.Integer 0) 0) ∧
    (∀ buf : List Nat, read_value buf 9 = .ok (.Integer 1) 0) := by
  refine ⟨?_, ?_, ?_, ?_⟩
  · intro rest
    unfold read_value
    norm_num [toSigned]
  · intro rest
    unfold read_value
    norm_num [toSigned]
  · intro buf
    unfold read_value
    norm_num
  · intro buf
    unfold read_value
    norm_num

/-! ## Record decoding (`read_record`) -/

/-- Outcome of the serial-type header loop of `read_record`. -/
inductive STParse where
  | ok : List Nat → Nat → STParse
  | corrupt : STParse
  | panicked : STParse
deriving DecidableEq, Repr

/-- Outcome of `read_record`.  The decoded values are listed in decode
order (the source's `SmallVec` visits its first 64 inline entries and then
the heap spill, which is exactly the original order). -/
inductive RecResult where
  | ok : List RefValue → RecResult
  | corrupt : RecResult
  | panicked : RecResult
deriving DecidableEq, Repr

/-- The header loop of `read_record`: while `header_size > 0`, read a
serial-type varint at `pos`, validate it (`Corrupt` on an invalid tag), and
subtract its length from the remaining header size; the source's
`assert!(header_size >= nr)` is a panic when the varint runs past the
header's declared end.  The first argument is fuel: each iteration consumes
`nr ≥ 1` header bytes, so the initial call with fuel = remaining header
size never exhausts it and the fuel-0, `hs ≠ 0` arm is unreachable. -/
def parseSTs (payload : List Nat) : Nat → Nat → Nat → List Nat → STParse
  | 0, pos, hs, acc => if hs = 0 then .ok acc pos else .corrupt
  | fuel + 1, pos, hs, acc =>
    if hs = 0 then .ok acc pos
    else
      match read_varint (payload.drop pos) with
      | .corrupt => .corrupt
      | .panicked => .panicked
      | .ok st nr =>
        if is_valid st then
          if hs < nr then .panicked
          else parseSTs payload fuel (pos + nr) (hs - nr) (acc ++ [st])
        else .corrupt

/-- The value loop of `read_record`: decode one value per collected serial
type, advancing `pos` by the consumed byte count. -/
def readValues (payload : List Nat) : List Nat → Nat → List RefValue → RecResult
  | [], _, acc => .ok acc
  | st :: sts, pos, acc =>
    match read_value (payload.drop pos) st with
    | .corrupt => .corrupt
    | .ok v n => readValues payload sts (pos + n) (acc ++ [v])

/-- `read_record` from the source: parse the header-size varint, check
`assert!(header_size >= nr)` (panic on failure), collect the serial types,
then decode the values. -/
def read_record (payload : List Nat) : RecResult :=
  match read_varint payload with
  | .corrupt => .corrupt
  | .panicked => .panicked
  | .ok header_size nr =>
    if header_size < nr then .panicked
    else
      match parseSTs payload (header_size - nr) nr (header_size - nr) [] with
      | .corrupt => .corrupt
      | .panicked => .panicked
      | .ok sts pos => readValues payload sts pos []

/-- C8 counterexample: the claim says `read_record` returns `Corrupt` (and
never panics) when the declared header size is smaller than its own
varint's length, but on the one-byte payload `[0x00]` — header size 0,
varint length 1 — the source's `assert!(header_size >= nr)` fails: the code
panics rather than returning `Corrupt`. -/
theorem C8_read_record_counterexample :
    read_record [0x00] = .panicked ∧ RecResult.panicked ≠ RecResult.corrupt :=
  ⟨by decide, by decide⟩

/-- Byte width consumed by `read_value` for a valid serial type: the
serial-type table's value sizes (0 for NULL and the constant integers, the
fixed 1/2/3/4/6/8-byte sizes for the integer and float tags, `(t-12)/2`
bytes for a blob tag, `(t-13)/2` bytes for a text tag). -/
def stWidth (t : Nat) : Nat :=
  if t = 0 then 0
  else if t = 1 then 1
  else if t = 2 then 2
  else if t = 3 then 3
  else if t = 4 then 4
  else if t = 5 then 6
  else if t = 6 then 8
  else if t = 7 then 8
  else if t = 8 then 0
  else if t = 9 then 0
  else if is_blob t then blob_size t
  else string_size t

/-- A valid serial type is a tag `≤ 9`, a blob tag, or a text tag. -/
theorem is_valid_cases (t : Nat) (hv : is_valid t = true) :
    t ≤ 9 ∨ (12 ≤ t ∧ t % 2 = 0) ∨ (13 ≤ t ∧ t % 2 = 1) := by
  unfold is_valid is_blob is_string at hv
  simp only [Bool.or_eq_true, Bool.and_eq_true, decide_eq_true_eq, beq_iff_eq] at hv
  tauto

/-- For tags `≥ 12` the serial-type width reduces to the blob/text size. -/
theorem stWidth_ge12 (t : Nat) (h12 : 12 ≤ t) :
    stWidth t = if is_blob t then blob_size t else string_size t := by
  unfold stWidth
  simp [show t ≠ 0 by omega, show t ≠ 1 by omega, show t ≠ 2 by omega,
    show t ≠ 3 by omega, show t ≠ 4 by omega, show t ≠ 5 by omega,
    show t ≠ 6 by omega, show t ≠ 7 by omega, show t ≠ 8 by omega,
    show t ≠ 9 by omega]

/-- For tags `≥ 12` `read_value` reduces to its blob and text branches. -/
theorem read_value_ge12 (buf : List Nat) (t : Nat) (h12 : 12 ≤ t) :
    read_value buf t =
      if is_blob t then
        if buf.length < blob_size t then .corrupt
        else .ok (.Blob (buf.take (blob_size t))) (blob_size t)
      else if is_string t then
        if buf.length < string_size t then .corrupt
        else .ok (.Text (buf.take (string_size t))) (string_size t)
      else .corrupt := by
  unfold read_value
  simp [show t ≠ 0 by omega, show t ≠ 1 by omega, show t ≠ 2 by omega,
    show t ≠ 3 by omega, show t ≠ 4 by omega, show t ≠ 5 by omega,
    show t ≠ 6 by omega, show t ≠ 7 by omega, show t ≠ 8 by omega,
    show t ≠ 9 by omega]

/-- `read_value` returns `Corrupt` when the buffer is shorter than the
serial type's width. -/
theorem read_value_short (buf : List Nat) (st : Nat) (hv : is_valid st = true)
    (h : buf.length < stWidth st) : read_value buf st = .corrupt := by
  rcases is_valid_cases st hv with hle | hb | hstr
  · interval_cases st <;> simp_all [read_value, stWidth]
  · have hb' : is_blob st = true := by
      unfold is_blob
      simp [hb.1, hb.2]
    rw [stWidth_ge12 st hb.1, if_pos hb'] at h
    rw [read_value_ge12 buf st hb.1, if_pos hb', if_pos h]
  · have hsb : is_blob st = false := by
      unfold is_blob
      simp [hstr.2]
    have hstr' : is_string st = true := by
      unfold is_string
      simp [hstr.1, hstr.2]
    have h12 : 12 ≤ st := by omega
    rw [stWidth_ge12 st h12, if_neg (by simp [hsb])] at h
    rw [read_value_ge12 buf st h12, if_neg (by simp [hsb]), if_pos hstr', if_pos h]

/-- `read_value` on a long-enough buffer succeeds and consumes exactly the
serial type's width. -/
theorem read_value_long (buf : List Nat) (st : Nat) (hv : is_valid st = true)
    (h : stWidth st ≤ buf.length) : ∃ v, read_value buf st = .ok v (stWidth st) := by
  rcases is_valid_cases st hv with hle | hb | hstr
  · interval_cases st <;>
      exact ⟨_, by
        have hne := Nat.not_lt.mpr h
        simp_all [read_value, stWidth]
        try rw [if_neg (by omega)]
        try rfl⟩
  · have hb' : is_blob st = true := by
      unfold is_blob
      simp [hb.1, hb.2]
    rw [stWidth_ge12 st hb.1, if_pos hb'] at h
    refine ⟨.Blob (buf.take (blob_size st)), ?_⟩
    rw [read_value_ge12 buf st hb.1, if_pos hb', if_neg (by omega),
      stWidth_ge12 st hb.1, if_pos hb']
  · have hsb : is_blob st = false := by
      unfold is_blob
      simp [hstr.2]
    have hstr' : is_string st = true := by
      unfold is_string
      simp [hstr.1, hstr.2]
    have h12 : 12 ≤ st := by omega
    rw [stWidth_ge12 st h12, if_neg (by simp [hsb])] at h
    refine ⟨.Text (buf.take (string_size st)), ?_⟩
    rw [read_value_ge12 buf st h12, if_neg (by simp [hsb]), if_pos hstr',
      if_neg (by omega), stWidth_ge12 st h12, if_neg (by simp [hsb])]

/-- The value loop returns `Corrupt` whenever the sum of the (valid) serial
types' widths exceeds the payload remaining after `pos`. -/
theorem readValues_corrupt (payload : List Nat) (sts : List Nat) :
    ∀ pos acc, (∀ st ∈ sts, is_valid st = true) →
      payload.length - pos < (sts.map stWidth).sum →
      readValues payload sts pos acc = .corrupt := by
  induction sts with
  | nil =>
    intro pos acc _ hsum
    simp at hsum
  | cons st sts ih =>
    intro pos acc hval hsum
    have hv : is_valid st = true := hval st (by simp)
    have hdl : (payload.drop pos).length = payload.length - pos := by simp
    simp only [List.map_cons, List.sum_cons] at hsum
    by_cases hlt : (payload.drop pos).length < stWidth st
    · have hc := read_value_short (payload.drop pos) st hv hlt
      unfold readValues
      simp only [hc]
    · push_neg at hlt
      obtain ⟨v, hok⟩ := read_value_long (payload.drop pos) st hv hlt
      unfold readValues
      simp only [hok]
      exact ih (pos + stWidth st) (acc ++ [v])
        (fun s hsm => hval s (by simp [hsm]))
        (by omega)

/-- Every serial type collected by a successful header loop is valid. -/
theorem parseSTs_valid (payload : List Nat) (fuel : Nat) :
    ∀ pos hs acc sts p, (∀ st ∈ acc, is_valid st = true) →
      parseSTs payload fuel pos hs acc = .ok sts p →
      ∀ st ∈ sts, is_valid st = true := by
  induction fuel with
  | zero =>
    intro pos hs acc sts p hacc h
    unfold parseSTs at h
    by_cases hhs : hs = 0
    · rw [if_pos hhs] at h
      cases h
      exact hacc
    · rw [if_neg hhs] at h
      cases h
  | succ fuel ih =>
    intro pos hs acc sts p hacc h
    unfold parseSTs at h
    by_cases hhs : hs = 0
    · rw [if_pos hhs] at h
      cases h
      exact hacc
    · rw [if_neg hhs] at h
      cases hrv : read_varint (payload.drop pos) with
      | corrupt =>
        simp only [hrv] at h
        cases h
      | panicked =>
        simp only [hrv] at h
        cases h
      | ok st nr =>
        simp only [hrv] at h
        by_cases hvst : is_valid st = true
        · rw [if_pos hvst] at h
          by_cases hlt : hs < nr
          · rw [if_pos hlt] at h
            cases h
          · rw [if_neg hlt] at h
            refine ih (pos + nr) (hs - nr) (acc ++ [st]) sts p ?_ h
            intro s hsm
            rcases List.mem_append.mp hsm with hm | hm
            · exact hacc s hm
            · simp at hm
              subst hm
              exact hvst
        · rw [if_neg hvst] at h
          cases h

/-- A successful value loop yields exactly one value per serial type. -/
theorem readValues_length (payload : List Nat) (sts : List Nat) :
    ∀ pos acc vs, readValues payload sts pos acc = .ok vs →
      vs.length = acc.length + sts.length := by
  induction sts with
  | nil =>
    intro pos acc vs h
    unfold readValues at h
    cases h
    simp
  | cons st sts ih =>
    intro pos acc vs h
    unfold readValues at h
    cases hrv : read_value (payload.drop pos) st with
    | corrupt =>
      simp only [hrv] at h
      cases h
    | ok v n =>
      simp only [hrv] at h
      have hlen := ih (pos + n) (acc ++ [v]) vs h
      simp only [List.length_append, List.length_cons, List.length_nil] at hlen ⊢
      omega

/-- C8 amended: `read_record` panics via `assert!` — rather than returning
`Corrupt` — (1) whenever the declared header size is smaller than its own
varint's byte count, and (2, 3) whenever the header loop reads a valid
serial-type varint longer than the remaining declared header size — past
the header's declared end — at any iteration, the panic propagating out of
`read_record`; (4) it returns `Corrupt` whenever the header parses
completely but the sum of the serial-type value widths exceeds the
remaining payload; and (5) a success is never partial: it decodes exactly
one value for every serial type collected from the header. -/
theorem C8_read_record_amended :
    (∀ payload hs nr, read_varint payload = .ok hs nr → hs < nr →
      read_record payload = .panicked) ∧
    (∀ payload fuel pos hs acc st nr, hs ≠ 0 →
      read_varint (payload.drop pos) = .ok st nr → is_valid st = true →
      hs < nr → parseSTs payload (fuel + 1) pos hs acc = .panicked) ∧
    (∀ payload hs nr, read_varint payload = .ok hs nr → nr ≤ hs →
      parseSTs payload (hs - nr) nr (hs - nr) [] = .panicked →
      read_record payload = .panicked) ∧
    (∀ payload hs nr sts pos, read_varint payload = .ok hs nr → nr ≤ hs →
      parseSTs payload (hs - nr) nr (hs - nr) [] = .ok sts pos →
      payload.length - pos < (sts.map stWidth).sum →
      read_record payload = .corrupt) ∧
    (∀ payload vs, read_record payload = .ok vs →
      ∃ hs nr sts pos, read_varint payload = .ok hs nr ∧ nr ≤ hs ∧
        parseSTs payload (hs - nr) nr (hs - nr) [] = .ok sts pos ∧
        vs.length = sts.length) := by
  refine ⟨?_, ?_, ?_, ?_, ?_⟩
  · intro payload hs nr h hlt
    unfold read_record
    simp only [h]
    rw [if_pos hlt]
  · intro payload fuel pos hs acc st nr hhs hrv hvst hlt
    unfold parseSTs
    rw [if_neg hhs]
    simp only [hrv]
    rw [if_pos hvst, if_pos hlt]
  · intro payload hs nr h hle hpan
    unfold read_record
    simp only [h]
    rw [if_neg (by omega : ¬ hs < nr)]
    simp only [hpan]
  · intro payload hs nr sts pos hrv hle hps hsum
    unfold read_record
    simp only [hrv]
    rw [if_neg (by omega : ¬ hs < nr)]
    simp only [hps]
    refine readValues_corrupt payload sts pos [] ?_ hsum
    refine parseSTs_valid payload (hs - nr) nr (hs - nr) [] sts pos ?_ hps
    intro s hm
    simp at hm
  · intro payload vs h
    unfold read_record at h
    cases hrv : read_varint payload with
    | corrupt =>
      simp only [hrv] at h
      cases h
    | panicked =>
      simp only [hrv] at h
      cases h
    | ok hs nr =>
      simp only [hrv] at h
      by_cases hlt : hs < nr
      · rw [if_pos hlt] at h
        cases h
      · rw [if_neg hlt] at h
        cases hps : parseSTs payload (hs - nr) nr (hs - nr) [] with
        | corrupt =>
          simp only [hps] at h
          cases h
        | panicked =>
          simp only [hps] at h
          cases h
        | ok sts pos =>
          simp only [hps] at h
          refine ⟨hs, nr, sts, pos, rfl, by omega, hps, ?_⟩
          have hlen := readValues_length payload sts pos [] vs h
          simpa using hlen

/-- Witness applying every clause of the C8 amended theorem at concrete
inputs: the header-size assert panic on `[0x00]`, the header-loop overrun
panic on `[0x02, 0x81, 0x01]` (serial-type varint `0x81 0x01` is 2 bytes
against 1 remaining header byte) both inside the loop and propagated, the
width-excess `Corrupt` on `[2, 6]` (an 8-byte integer declared with no
payload left), and the no-partial-result shape of a successful decode. -/
theorem C8_read_record_amended_witness :
    read_record [0x00] = .panicked ∧
    parseSTs [0x02, 0x81, 0x01] 1 1 1 [] = .panicked ∧
    read_record [0x02, 0x81, 0x01] = .panicked ∧
    read_record [2, 6] = .corrupt ∧
    (∃ hs nr sts pos,
      read_varint [2, 6, 0, 0, 0, 0, 0, 0, 0, 1] = .ok hs nr ∧ nr ≤ hs ∧
      parseSTs [2, 6, 0, 0, 0, 0, 0, 0, 0, 1] (hs - nr) nr (hs - nr) [] = .ok sts pos ∧
      ([RefValue.Integer 1] : List RefValue).length = sts.length) := by
  refine ⟨?_, ?_, ?_, ?_, ?_⟩
  · exact C8_read_record_amended.1 [0x00] 0 1 (by decide) (by decide)
  · exact C8_read_record_amended.2.1 [0x02, 0x81, 0x01] 0 1 1 [] 0x81 2
      (by decide) (by decide) (by decide) (by decide)
  · exact C8_read_record_amended.2.2.1 [0x02, 0x81, 0x01] 2 1
      (by decide) (by decide) (by decide)
  · exact C8_read_record_amended.2.2.2.1 [2, 6] 2 1 [6] 2
      (by decide) (by decide) (by decide) (by decide)
  · exact C8_read_record_amended.2.2.2.2 [2, 6, 0, 0, 0, 0, 0, 0, 0, 1]
      [RefValue.Integer 1] (by decide)

/-! ## Database header codec -/

/-- The 100-byte database file header, with the same fields as the source
struct.  `u8`/`u16`/`u32` fields are `Nat` (bounded in the theorems),
`default_page_cache_size` is a signed `i32` modelled as `Int`. -/
structure DatabaseHeader where
  magic : List Nat
  page_size : Nat
  write_version : Nat
  read_version : Nat
  reserved_space : Nat
  max_embed_frac : Nat
  min_embed_frac : Nat
  min_leaf_frac : Nat
  change_counter : Nat
  database_size : Nat
  freelist_trunk_page : Nat
  freelist_pages : Nat
  schema_cookie : Nat
  schema_format : Nat
  default_page_cache_size : Int
  vacuum_mode_largest_root_page : Nat
  text_encoding : Nat
  user_version : Nat
  incremental_vacuum_enabled : Nat
  application_id : Nat
  reserved_for_expansion : List Nat
  version_valid_for : Nat
  version_number : Nat
deriving DecidableEq, Repr

/-- `u16::to_be_bytes`. -/
def be16 (n : Nat) : List Nat := [n / 2 ^ 8 % 256, n % 256]

/-- `u32::to_be_bytes`. -/
def be32 (n : Nat) : List Nat :=
  [n / 2 ^ 24 % 256, n / 2 ^ 16 % 256, n / 2 ^ 8 % 256, n % 256]

/-- `i32::to_be_bytes`: two's complement, then big-endian bytes. -/
def i32_to_be (i : Int) : List Nat := be32 (i % 2 ^ 32).toNat

/-- `write_header_to_buf` from the source: serialize the header into the
first 100 bytes of the page buffer (the source does not touch the bytes
past offset 100, which are therefore not modelled). -/
def write_header_to_buf (h : DatabaseHeader) : List Nat :=
  h.magic ++ (be16 h.page_size ++
  ([h.write_version, h.read_version, h.reserved_space,
    h.max_embed_frac, h.min_embed_frac, h.min_leaf_frac] ++
  (be32 h.change_counter ++ (be32 h.database_size ++
  (be32 h.freelist_trunk_page ++ (be32 h.freelist_pages ++
  (be32 h.schema_cookie ++ (be32 h.schema_format ++
  (i32_to_be h.default_page_cache_size ++
  (be32 h.vacuum_mode_largest_root_page ++ (be32 h.text_encoding ++
  (be32 h.user_version ++ (be32 h.incremental_vacuum_enabled ++
  (be32 h.application_id ++ (h.reserved_for_expansion ++
  (be32 h.version_valid_for ++ be32 h.version_number))))))))))))))))

/-- `buf[pos]`.  The source indexes into a 512-byte I/O buffer; reads past
the end of a shorter buffer would panic in the source and yield the default
0 here, but cannot occur in the modelled uses (the encoder always produces
100 bytes). -/
def rd8 (buf : List Nat) (pos : Nat) : Nat := buf.getD pos 0

/-- `u16::from_be_bytes([buf[pos], buf[pos+1]])`. -/
def rd16 (buf : List Nat) (pos : Nat) : Nat :=
  rd8 buf pos * 2 ^ 8 + rd8 buf (pos + 1)

/-- `u32::from_be_bytes` of the four bytes at `pos`. -/
def rd32 (buf : List Nat) (pos : Nat) : Nat :=
  rd8 buf pos * 2 ^ 24 + rd8 buf (pos + 1) * 2 ^ 16 +
  rd8 buf (pos + 2) * 2 ^ 8 + rd8 buf (pos + 3)

/-- `finish_read_database_header` from the source: read each field from its
fixed big-endian offset.  A stored `default_page_cache_size` of 0 is
replaced by the `DEFAULT_CACHE_SIZE` constant `-2000`. -/
def finish_read_database_header (buf : List Nat) : DatabaseHeader := {
  magic := buf.take 16,
  page_size := rd16 buf 16,
  write_version := rd8 buf 18,
  read_version := rd8 buf 19,
  reserved_space := rd8 buf 20,
  max_embed_frac := rd8 buf 21,
  min_embed_frac := rd8 buf 22,
  min_leaf_frac := rd8 buf 23,
  change_counter := rd32 buf 24,
  database_size := rd32 buf 28,
  freelist_trunk_page := rd32 buf 32,
  freelist_pages := rd32 buf 36,
  schema_cookie := rd32 buf 40,
  schema_format := rd32 buf 44,
  default_page_cache_size :=
    (if toSigned 32 (rd32 buf 48) = 0 then -2000 else toSigned 32 (rd32 buf 48)),
  vacuum_mode_largest_root_page := rd32 buf 52,
  text_encoding := rd32 buf 56,
  user_version := rd32 buf 60,
  incremental_vacuum_enabled := rd32 buf 64,
  application_id := rd32 buf 68,
  reserved_for_expansion := (buf.drop 72).take 20,
  version_valid_for := rd32 buf 92,
  version_number := rd32 buf 96 }

theorem rd8_skip (c rest : List Nat) (p L q : Nat) (hL : c.length = L)
    (hq : p = L + q) : rd8 (c ++ rest) p = rd8 rest q := by
  unfold rd8
  rw [List.getD_append_right _ _ _ _ (by omega)]
  congr 1
  omega

theorem rd16_skip (c rest : List Nat) (p L q : Nat) (hL : c.length = L)
    (hq : p = L + q) : rd16 (c ++ rest) p = rd16 rest q := by
  unfold rd16
  rw [rd8_skip c rest p L q hL hq, rd8_skip c rest (p + 1) L (q + 1) hL (by omega)]

theorem rd32_skip (c rest : List Nat) (p L q : Nat) (hL : c.length = L)
    (hq : p = L + q) : rd32 (c ++ rest) p = rd32 rest q := by
  unfold rd32
  rw [rd8_skip c rest p L q hL hq, rd8_skip c rest (p + 1) L (q + 1) hL (by omega),
    rd8_skip c rest (p + 2) L (q + 2) hL (by omega),
    rd8_skip c rest (p + 3) L (q + 3) hL (by omega)]

theorem drop_skip (c rest : List Nat) (p L q : Nat) (hL : c.length = L)
    (hq : p = L + q) : (c ++ rest).drop p = rest.drop q := by
  have h1 : p = c.length + q := by omega
  rw [h1, ← List.drop_drop, List.drop_left]

theorem rd16_be16 (n : Nat) (rest : List Nat) (hn : n < 2 ^ 16) :
    rd16 (be16 n ++ rest) 0 = n := by
  have h : rd16 (be16 n ++ rest) 0 = n / 2 ^ 8 % 256 * 2 ^ 8 + n % 256 := rfl
  rw [h]
  omega

theorem rd32_be32 (n : Nat) (rest : List Nat) (hn : n < 2 ^ 32) :
    rd32 (be32 n ++ rest) 0 = n := by
  have h : rd32 (be32 n ++ rest) 0 = n / 2 ^ 24 % 256 * 2 ^ 24 +
      n / 2 ^ 16 % 256 * 2 ^ 16 + n / 2 ^ 8 % 256 * 2 ^ 8 + n % 256 := rfl
  rw [h]
  omega

theorem rd32_be32_end (n : Nat) (hn : n < 2 ^ 32) : rd32 (be32 n) 0 = n := by
  have h : rd32 (be32 n) 0 = n / 2 ^ 24 % 256 * 2 ^ 24 +
      n / 2 ^ 16 % 256 * 2 ^ 16 + n / 2 ^ 8 % 256 * 2 ^ 8 + n % 256 := rfl
  rw [h]
  omega

/-- A default-shaped header whose `default_page_cache_size` is 0 on disk. -/
def hdr_zero_cache : DatabaseHeader := {
  magic := [83, 81, 76, 105, 116, 101, 32, 102, 111, 114, 109, 97, 116, 32, 51, 0],
  page_size := 4096, write_version := 2, read_version := 2, reserved_space := 0,
  max_embed_frac := 64, min_embed_frac := 32, min_leaf_frac := 32,
  change_counter := 1, database_size := 1, freelist_trunk_page := 0,
  freelist_pages := 0, schema_cookie := 0, schema_format := 4,
  default_page_cache_size := 0, vacuum_mode_largest_root_page := 0,
  text_encoding := 1, user_version := 0, incremental_vacuum_enabled := 0,
  application_id := 0, reserved_for_expansion := List.replicate 20 0,
  version_valid_for := 3047000, version_number := 3047000 }

/-- C3 counterexample: the claim asserts the decode/encode round-trip holds
field-by-field for all field values including `default_page_cache_size = 0`,
but decoding maps a stored 0 to the `DEFAULT_CACHE_SIZE` constant `-2000`,
so the round-trip fails exactly at that value. -/
theorem C3_header_roundtrip_counterexample :
    finish_read_database_header (write_header_to_buf hdr_zero_cache) =
      { hdr_zero_cache with default_page_cache_size := -2000 } ∧
    finish_read_database_header (write_header_to_buf hdr_zero_cache) ≠
      hdr_zero_cache := by
  constructor
  · decide
  · decide

set_option maxHeartbeats 2000000 in
/-- C3 amended: for every database header whose fields are in range
(`u8`/`u16`/`u32` bounds, a 16-byte magic, a 20-byte reserved block, and
`default_page_cache_size` a nonzero `i32`), decoding the 100-byte buffer
produced by encoding yields the header back field-by-field; when the stored
`default_page_cache_size` is 0 the decoded value is `-2000` instead (see the
counterexample). -/
theorem C3_header_roundtrip_amended (h : DatabaseHeader)
    (hmagic : h.magic.length = 16)
    (hres : h.reserved_for_expansion.length = 20)
    (hps : h.page_size < 2 ^ 16)
    (hwv : h.write_version < 2 ^ 8) (hrv : h.read_version < 2 ^ 8)
    (hrs : h.reserved_space < 2 ^ 8) (hmaxf : h.max_embed_frac < 2 ^ 8)
    (hminf : h.min_embed_frac < 2 ^ 8) (hlf : h.min_leaf_frac < 2 ^ 8)
    (hcc : h.change_counter < 2 ^ 32) (hds : h.database_size < 2 ^ 32)
    (hft : h.freelist_trunk_page < 2 ^ 32) (hfp : h.freelist_pages < 2 ^ 32)
    (hsc : h.schema_cookie < 2 ^ 32) (hsf : h.schema_format < 2 ^ 32)
    (hdp1 : -(2 ^ 31) ≤ h.default_page_cache_size)
    (hdp2 : h.default_page_cache_size < 2 ^ 31)
    (hdp0 : h.default_page_cache_size ≠ 0)
    (hvr : h.vacuum_mode_largest_root_page < 2 ^ 32)
    (hte : h.text_encoding < 2 ^ 32) (huv : h.user_version < 2 ^ 32)
    (hiv : h.incremental_vacuum_enabled < 2 ^ 32)
    (hai : h.application_id < 2 ^ 32) (hvv : h.version_valid_for < 2 ^ 32)
    (hvn : h.version_number < 2 ^ 32) :
    finish_read_database_header (write_header_to_buf h) = h := by
  obtain ⟨mag, ps, wv, rv, rs, mef, mif, mlf, cc, ds, ft, fp, sc, sf, dp,
    vr, te, uv, iv, ai, res, vv, vn⟩ := h
  replace hmagic : mag.length = 16 := hmagic
  replace hres : res.length = 20 := hres
  replace hps : ps < 2 ^ 16 := hps
  replace hwv : wv < 2 ^ 8 := hwv
  replace hrv : rv < 2 ^ 8 := hrv
  replace hrs : rs < 2 ^ 8 := hrs
  replace hmaxf : mef < 2 ^ 8 := hmaxf
  replace hminf : mif < 2 ^ 8 := hminf
  replace hlf : mlf < 2 ^ 8 := hlf
  replace hcc : cc < 2 ^ 32 := hcc
  replace hds : ds < 2 ^ 32 := hds
  replace hft : ft < 2 ^ 32 := hft
  replace hfp : fp < 2 ^ 32 := hfp
  replace hsc : sc < 2 ^ 32 := hsc
  replace hsf : sf < 2 ^ 32 := hsf
  replace hdp1 : -(2 ^ 31) ≤ dp := hdp1
  replace hdp2 : dp < 2 ^ 31 := hdp2
  replace hdp0 : dp ≠ 0 := hdp0
  replace hvr : vr < 2 ^ 32 := hvr
  replace hte : te < 2 ^ 32 := hte
  replace huv : uv < 2 ^ 32 := huv
  replace hiv : iv < 2 ^ 32 := hiv
  replace hai : ai < 2 ^ 32 := hai
  replace hvv : vv < 2 ^ 32 := hvv
  replace hvn : vn < 2 ^ 32 := hvn
  simp only [finish_read_database_header, DatabaseHeader.mk.injEq]
  have hNlt : (dp % 2 ^ 32).toNat < 2 ^ 32 := by omega
  have hts : toSigned 32 (dp % 2 ^ 32).toNat = dp := by
    unfold toSigned
    split <;> omega
  have hkey : ∀ X : Nat, X = (dp % 2 ^ 32).toNat →
      (if toSigned 32 X = 0 then (-2000 : Int) else toSigned 32 X) = dp := by
    intro X hX
    subst hX
    rw [hts, if_neg hdp0]
  repeat' apply And.intro
  · simp only [write_header_to_buf]
    exact List.take_left' hmagic
  · simp only [write_header_to_buf]
    rw [rd16_skip mag _ 16 16 0 hmagic (by norm_num)]
    exact rd16_be16 ps _ hps
  · simp only [write_header_to_buf]
    rw [rd8_skip mag _ 18 16 2 hmagic (by norm_num),
      rd8_skip (be16 ps) _ 2 2 0 rfl (by norm_num)]
    rfl
  · simp only [write_header_to_buf]
    rw [rd8_skip mag _ 19 16 3 hmagic (by norm_num),
      rd8_skip (be16 ps) _ 3 2 1 rfl (by norm_num)]
    rfl
  · simp only [write_header_to_buf]
    rw [rd8_skip mag _ 20 16 4 hmagic (by norm_num),
      rd8_skip (be16 ps) _ 4 2 2 rfl (by norm_num)]
    rfl
  · simp only [write_header_to_buf]
    rw [rd8_skip mag _ 21 16 5 hmagic (by norm_num),
      rd8_skip (be16 ps) _ 5 2 3 rfl (by norm_num)]
    rfl
  · simp only [write_header_to_buf]
    rw [rd8_skip mag _ 22 16 6 hmagic (by norm_num),
      rd8_skip (be16 ps) _ 6 2 4 rfl (by norm_num)]
    rfl
  · simp only [write_header_to_buf]
    rw [rd8_skip mag _ 23 16 7 hmagic (by norm_num),
      rd8_skip (be16 ps) _ 7 2 5 rfl (by norm_num)]
    rfl
  · simp only [write_header_to_buf]
    rw [rd32_skip (mag) _ 24 16 8 hmagic (by norm_num),
      rd32_skip (be16 ps) _ 8 2 6 rfl (by norm_num),
      rd32_skip ([wv, rv, rs, mef, mif, mlf]) _ 6 6 0 rfl (by norm_num)]
    exact rd32_be32 cc _ hcc
  · simp only [write_header_to_buf]
    rw [rd32_skip (mag) _ 28 16 12 hmagic (by norm_num),
      rd32_skip (be16 ps) _ 12 2 10 rfl (by norm_num),
      rd32_skip ([wv, rv, rs, mef, mif, mlf]) _ 10 6 4 rfl (by norm_num),
      rd32_skip (be32 cc) _ 4 4 0 rfl (by norm_num)]
    exact rd32_be32 ds _ hds
  · simp only [write_header_to_buf]
    rw [rd32_skip (mag) _ 32 16 16 hmagic (by norm_num),
      rd32_skip (be16 ps) _ 16 2 14 rfl (by norm_num),
      rd32_skip ([wv, rv, rs, mef, mif, mlf]) _ 14 6 8 rfl (by norm_num),
      rd32_skip (be32 cc) _ 8 4 4 rfl (by norm_num),
      rd32_skip (be32 ds) _ 4 4 0 rfl (by norm_num)]
    exact rd32_be32 ft _ hft
  · simp only [write_header_to_buf]
    rw [rd32_skip (mag) _ 36 16 20 hmagic (by norm_num),
      rd32_skip (be16 ps) _ 20 2 18 rfl (by norm_num),
      rd32_skip ([wv, rv, rs, mef, mif, mlf]) _ 18 6 12 rfl (by norm_num),
      rd32_skip (be32 cc) _ 12 4 8 rfl (by norm_num),
      rd32_skip (be32 ds) _ 8 4 4 rfl (by norm_num),
      rd32_skip (be32 ft) _ 4 4 0 rfl (by norm_num)]
    exact rd32_be32 fp _ hfp
  · simp only [write_header_to_buf]
    rw [rd32_skip (mag) _ 40 16 24 hmagic (by norm_num),
      rd32_skip (be16 ps) _ 24 2 22 rfl (by norm_num),
      rd32_skip ([wv, rv, rs, mef, mif, mlf]) _ 22 6 16 rfl (by norm_num),
      rd32_skip (be32 cc) _ 16 4 12 rfl (by norm_num),
      rd32_skip (be32 ds) _ 12 4 8 rfl (by norm_num),
      rd32_skip (be32 ft) _ 8 4 4 rfl (by norm_num),
      rd32_skip (be32 fp) _ 4 4 0 rfl (by norm_num)]
    exact rd32_be32 sc _ hsc
  · simp only [write_header_to_buf]
    rw [rd32_skip (mag) _ 44 16 28 hmagic (by norm_num),
      rd32_skip (be16 ps) _ 28 2 26 rfl (by norm_num),
      rd32_skip ([wv, rv, rs, mef, mif, mlf]) _ 26 6 20 rfl (by norm_num),
      rd32_skip (be32 cc) _ 20 4 16 rfl (by norm_num),
      rd32_skip (be32 ds) _ 16 4 12 rfl (by norm_num),
      rd32_skip (be32 ft) _ 12 4 8 rfl (by norm_num),
      rd32_skip (be32 fp) _ 8 4 4 rfl (by norm_num),
      rd32_skip (be32 sc) _ 4 4 0 rfl (by norm_num)]
    exact rd32_be32 sf _ hsf
  · simp only [write_header_to_buf, i32_to_be]
    rw [rd32_skip (mag) _ 48 16 32 hmagic (by norm_num),
      rd32_skip (be16 ps) _ 32 2 30 rfl (by norm_num),
      rd32_skip ([wv, rv, rs, mef, mif, mlf]) _ 30 6 24 rfl (by norm_num),
      rd32_skip (be32 cc) _ 24 4 20 rfl (by norm_num),
      rd32_skip (be32 ds) _ 20 4 16 rfl (by norm_num),
      rd32_skip (be32 ft) _ 16 4 12 rfl (by norm_num),
      rd32_skip (be32 fp) _ 12 4 8 rfl (by norm_num),
      rd32_skip (be32 sc) _ 8 4 4 rfl (by norm_num),
      rd32_skip (be32 sf) _ 4 4 0 rfl (by norm_num)]
    rw [rd32_be32 _ _ hNlt]
    exact hkey _ rfl
  · simp only [write_header_to_buf]
    rw [rd32_skip (mag) _ 52 16 36 hmagic (by norm_num),
      rd32_skip (be16 ps) _ 36 2 34 rfl (by norm_num),
      rd32_skip ([wv, rv, rs, mef, mif, mlf]) _ 34 6 28 rfl (by norm_num),
      rd32_skip (be32 cc) _ 28 4 24 rfl (by norm_num),
      rd32_skip (be32 ds) _ 24 4 20 rfl (by norm_num),
      rd32_skip (be32 ft) _ 20 4 16 rfl (by norm_num),
      rd32_skip (be32 fp) _ 16 4 12 rfl (by norm_num),
      rd32_skip (be32 sc) _ 12 4 8 rfl (by norm_num),
      rd32_skip (be32 sf) _ 8 4 4 rfl (by norm_num),
      rd32_skip (i32_to_be dp) _ 4 4 0 rfl (by norm_num)]
    exact rd32_be32 vr _ hvr
  · simp only [write_header_to_buf]
    rw [rd32_skip (mag) _ 56 16 40 hmagic (by norm_num),
      rd32_skip (be16 ps) _ 40 2 38 rfl (by norm_num),
      rd32_skip ([wv, rv, rs, mef, mif, mlf]) _ 38 6 32 rfl (by norm_num),
      rd32_skip (be32 cc) _ 32 4 28 rfl (by norm_num),
      rd32_skip (be32 ds) _ 28 4 24 rfl (by norm_num),
      rd32_skip (be32 ft) _ 24 4 20 rfl (by norm_num),
      rd32_skip (be32 fp) _ 20 4 16 rfl (by norm_num),
      rd32_skip (be32 sc) _ 16 4 12 rfl (by norm_num),
      rd32_skip (be32 sf) _ 12 4 8 rfl (by norm_num),
      rd32_skip (i32_to_be dp) _ 8 4 4 rfl (by norm_num),
      rd32_skip (be32 vr) _ 4 4 0 rfl (by norm_num)]
    exact rd32_be32 te _ hte
  · simp only [write_header_to_buf]
    rw [rd32_skip (mag) _ 60 16 44 hmagic (by norm_num),
      rd32_skip (be16 ps) _ 44 2 42 rfl (by norm_num),
      rd32_skip ([wv, rv, rs, mef, mif, mlf]) _ 42 6 36 rfl (by norm_num),
      rd32_skip (be32 cc) _ 36 4 32 rfl (by norm_num),
      rd32_skip (be32 ds) _ 32 4 28 rfl (by norm_num),
      rd32_skip (be32 ft) _ 28 4 24 rfl (by norm_num),
      rd32_skip (be32 fp) _ 24 4 20 rfl (by norm_num),
      rd32_skip (be32 sc) _ 20 4 16 rfl (by norm_num),
      rd32_skip (be32 sf) _ 16 4 12 rfl (by norm_num),
      rd32_skip (i32_to_be dp) _ 12 4 8 rfl (by norm_num),
      rd32_skip (be32 vr) _ 8 4 4 rfl (by norm_num),
      rd32_skip (be32 te) _ 4 4 0 rfl (by norm_num)]
    exact rd32_be32 uv _ huv
  · simp only [write_header_to_buf]
    rw [rd32_skip (mag) _ 64 16 48 hmagic (by norm_num),
      rd32_skip (be16 ps) _ 48 2 46 rfl (by norm_num),
      rd32_skip ([wv, rv, rs, mef, mif, mlf]) _ 46 6 40 rfl (by norm_num),
      rd32_skip (be32 cc) _ 40 4 36 rfl (by norm_num),
      rd32_skip (be32 ds) _ 36 4 32 rfl (by norm_num),
      rd32_skip (be32 ft) _ 32 4 28 rfl (by norm_num),
      rd32_skip (be32 fp) _ 28 4 24 rfl (by norm_num),
      rd32_skip (be32 sc) _ 24 4 20 rfl (by norm_num),
      rd32_skip (be32 sf) _ 20 4 16 rfl (by norm_num),
      rd32_skip (i32_to_be dp) _ 16 4 12 rfl (by norm_num),
      rd32_skip (be32 vr) _ 12 4 8 rfl (by norm_num),
      rd32_skip (be32 te) _ 8 4 4 rfl (by norm_num),
      rd32_skip (be32 uv) _ 4 4 0 rfl (by norm_num)]
    exact rd32_be32 iv _ hiv
  · simp only [write_header_to_buf]
    rw [rd32_skip (mag) _ 68 16 52 hmagic (by norm_num),
      rd32_skip (be16 ps) _ 52 2 50 rfl (by norm_num),
      rd32_skip ([wv, rv, rs, mef, mif, mlf]) _ 50 6 44 rfl (by norm_num),
      rd32_skip (be32 cc) _ 44 4 40 rfl (by norm_num),
      rd32_skip (be32 ds) _ 40 4 36 rfl (by norm_num),
      rd32_skip (be32 ft) _ 36 4 32 rfl (by norm_num),
      rd32_skip (be32 fp) _ 32 4 28 rfl (by norm_num),
      rd32_skip (be32 sc) _ 28 4 24 rfl (by norm_num),
      rd32_skip (be32 sf) _ 24 4 20 rfl (by norm_num),
      rd32_skip (i32_to_be dp) _ 20 4 16 rfl (by norm_num),
      rd32_skip (be32 vr) _ 16 4 12 rfl (by norm_num),
      rd32_skip (be32 te) _ 12 4 8 rfl (by norm_num),
      rd32_skip (be32 uv) _ 8 4 4 rfl (by norm_num),
      rd32_skip (be32 iv) _ 4 4 0 rfl (by norm_num)]
    exact rd32_be32 ai _ hai
  · simp only [write_header_to_buf]
    rw [drop_skip (mag) _ 72 16 56 hmagic (by norm_num),
      drop_skip (be16 ps) _ 56 2 54 rfl (by norm_num),
      drop_skip ([wv, rv, rs, mef, mif, mlf]) _ 54 6 48 rfl (by norm_num),
      drop_skip (be32 cc) _ 48 4 44 rfl (by norm_num),
      drop_skip (be32 ds) _ 44 4 40 rfl (by norm_num),
      drop_skip (be32 ft) _ 40 4 36 rfl (by norm_num),
      drop_skip (be32 fp) _ 36 4 32 rfl (by norm_num),
      drop_skip (be32 sc) _ 32 4 28 rfl (by norm_num),
      drop_skip (be32 sf) _ 28 4 24 rfl (by norm_num),
      drop_skip (i32_to_be dp) _ 24 4 20 rfl (by norm_num),
      drop_skip (be32 vr) _ 20 4 16 rfl (by norm_num),
      drop_skip (be32 te) _ 16 4 12 rfl (by norm_num),
      drop_skip (be32 uv) _ 12 4 8 rfl (by norm_num),
      drop_skip (be32 iv) _ 8 4 4 rfl (by norm_num),
      drop_skip (be32 ai) _ 4 4 0 rfl (by norm_num)]
    rw [List.drop_zero]
    exact List.take_left' hres
  · simp only [write_header_to_buf]
    rw [rd32_skip (mag) _ 92 16 76 hmagic (by norm_num),
      rd32_skip (be16 ps) _ 76 2 74 rfl (by norm_num),
      rd32_skip ([wv, rv, rs, mef, mif, mlf]) _ 74 6 68 rfl (by norm_num),
      rd32_skip (be32 cc) _ 68 4 64 rfl (by norm_num),
      rd32_skip (be32 ds) _ 64 4 60 rfl (by norm_num),
      rd32_skip (be32 ft) _ 60 4 56 rfl (by norm_num),
      rd32_skip (be32 fp) _ 56 4 52 rfl (by norm_num),
      rd32_skip (be32 sc) _ 52 4 48 rfl (by norm_num),
      rd32_skip (be32 sf) _ 48 4 44 rfl (by norm_num),
      rd32_skip (i32_to_be dp) _ 44 4 40 rfl (by norm_num),
      rd32_skip (be32 vr) _ 40 4 36 rfl (by norm_num),
      rd32_skip (be32 te) _ 36 4 32 rfl (by norm_num),
      rd32_skip (be32 uv) _ 32 4 28 rfl (by norm_num),
      rd32_skip (be32 iv) _ 28 4 24 rfl (by norm_num),
      rd32_skip (be32 ai) _ 24 4 20 rfl (by norm_num),
      rd32_skip (res) _ 20 20 0 hres (by norm_num)]
    exact rd32_be32 vv _ hvv
  · simp only [write_header_to_buf]
    rw [rd32_skip (mag) _ 96 16 80 hmagic (by norm_num),
      rd32_skip (be16 ps) _ 80 2 78 rfl (by norm_num),
      rd32_skip ([wv, rv, rs, mef, mif, mlf]) _ 78 6 72 rfl (by norm_num),
      rd32_skip (be32 cc) _ 72 4 68 rfl (by norm_num),
      rd32_skip (be32 ds) _ 68 4 64 rfl (by norm_num),
      rd32_skip (be32 ft) _ 64 4 60 rfl (by norm_num),
      rd32_skip (be32 fp) _ 60 4 56 rfl (by norm_num),
      rd32_skip (be32 sc) _ 56 4 52 rfl (by norm_num),
      rd32_skip (be32 sf) _ 52 4 48 rfl (by norm_num),
      rd32_skip (i32_to_be dp) _ 48 4 44 rfl (by norm_num),
      rd32_skip (be32 vr) _ 44 4 40 rfl (by norm_num),
      rd32_skip (be32 te) _ 40 4 36 rfl (by norm_num),
      rd32_skip (be32 uv) _ 36 4 32 rfl (by norm_num),
      rd32_skip (be32 iv) _ 32 4 28 rfl (by norm_num),
      rd32_skip (be32 ai) _ 28 4 24 rfl (by norm_num),
      rd32_skip (res) _ 24 20 4 hres (by norm_num),
      rd32_skip (be32 vv) _ 4 4 0 rfl (by norm_num)]
    exact rd32_be32_end vn hvn

/-- A default-shaped header with a nonzero `default_page_cache_size`. -/
def hdr_default : DatabaseHeader :=
  { hdr_zero_cache with default_page_cache_size := 500 }

/-- Witness for the C3 amended theorem at a concrete header. -/
theorem C3_header_roundtrip_amended_witness :
    finish_read_database_header (write_header_to_buf hdr_default) =
      hdr_default :=
  C3_header_roundtrip_amended hdr_default (by decide) (by decide) (by decide)
    (by decide) (by decide) (by decide) (by decide) (by decide) (by decide)
    (by decide) (by decide) (by decide) (by decide) (by decide) (by decide)
    (by decide) (by decide) (by decide) (by decide) (by decide) (by decide)
    (by decide) (by decide) (by decide) (by decide)

/-! ## B-tree page codec (`cell_get_raw_region`) -/

inductive PageType where
  | IndexInterior
  | TableInterior
  | IndexLeaf
  | TableLeaf
deriving DecidableEq, Repr

/-- `PageType::try_from(u8)`: tags 2, 5, 10, 13; anything else is a
`Corrupt` error. -/
def page_type_of_byte (b : Nat) : Option PageType :=
  if b = 2 then some .IndexInterior
  else if b = 5 then some .TableInterior
  else if b = 10 then some .IndexLeaf
  else if b = 13 then some .TableLeaf
  else none

/-- `PageContent`: a page buffer plus the offset of the b-tree header within
it (100 on page 1, 0 elsewhere).  The `overflow_cells` field plays no role
in the modelled functions. -/
structure PageContent where
  offset : Nat
  buffer : List Nat
deriving DecidableEq, Repr

/-- `read_u8`: `buf[self.offset + pos]`. -/
def PageContent.read_u8 (p : PageContent) (pos : Nat) : Nat :=
  rd8 p.buffer (p.offset + pos)

/-- `read_u16_no_offset`: big-endian u16 at an absolute buffer position. -/
def PageContent.read_u16_no_offset (p : PageContent) (pos : Nat) : Nat :=
  rd16 p.buffer pos

/-- `maybe_page_type` / `page_type`: byte 0 of the b-tree header; the source
`page_type()` unwraps and panics on an invalid tag. -/
def PageContent.maybe_page_type (p : PageContent) : Option PageType :=
  page_type_of_byte (p.read_u8 0)

/-- `cell_count`: big-endian u16 at header offset 3. -/
def PageContent.cell_count (p : PageContent) : Nat :=
  rd16 p.buffer (p.offset + 3)

/-- `header_size`: 12 bytes for interior pages, 8 for leaf pages. -/
def header_size : PageType → Nat
  | .IndexInterior => 12
  | .TableInterior => 12
  | .IndexLeaf => 8
  | .TableLeaf => 8

/-- `cell_get_raw_region` from the source: locate the cell through the cell
pointer array and compute `(start, len)` for its byte region.  `none` models
the source's panics (an invalid page type tag through `page_type()`, the
`assert!(idx < ncells)`, or an `unwrap` on a failed varint read). -/
def PageContent.cell_get_raw_region (p : PageContent)
    (idx payload_overflow_threshold_max payload_overflow_threshold_min
      usable_size : Nat) : Option (Nat × Nat) :=
  match p.maybe_page_type with
  | none => none
  | some pt =>
    if idx < p.cell_count then
      let cell_pointer_array_start := p.offset + header_size pt
      let cell_pointer := p.read_u16_no_offset (cell_pointer_array_start + idx * 2)
      match pt with
      | .IndexInterior =>
        match read_varint (p.buffer.drop (cell_pointer + 4)) with
        | .ok len_payload n_payload =>
          let r := payload_overflows len_payload payload_overflow_threshold_max
            payload_overflow_threshold_min usable_size
          some (cell_pointer,
            if r.1 then 4 + r.2 + n_payload + 4
            else 4 + len_payload + n_payload + 4)
        | _ => none
      | .TableInterior =>
        match read_varint (p.buffer.drop (cell_pointer + 4)) with
        | .ok _ n_rowid => some (cell_pointer, 4 + n_rowid)
        | _ => none
      | .IndexLeaf =>
        match read_varint (p.buffer.drop cell_pointer) with
        | .ok len_payload n_payload =>
          let r := payload_overflows len_payload payload_overflow_threshold_max
            payload_overflow_threshold_min usable_size
          some (cell_pointer,
            if r.1 then r.2 + n_payload + 4
            else len_payload + n_payload + 4)
        | _ => none
      | .TableLeaf =>
        match read_varint (p.buffer.drop cell_pointer) with
        | .ok len_payload n_payload =>
          match read_varint (p.buffer.drop (cell_pointer + n_payload)) with
          | .ok _ n_rowid =>
            let r := payload_overflows len_payload payload_overflow_threshold_max
              payload_overflow_threshold_min usable_size
            some (cell_pointer,
              if r.1 then r.2 + n_payload + n_rowid
              else len_payload + n_payload + n_rowid)
          | _ => none
        | _ => none
    else none

/-- The byte size of a cell's encoding as the spec's §4.4 table states it:
the 4-byte left-child pointer for interior variants, the internal varints,
the inline payload, plus a 4-byte overflow-page pointer exactly when the
payload overflows (`payload_overflows` returns `local + 4`, pointer
included), and no extra bytes when it does not. -/
def specCellSize (pt : PageType) (len_payload n_payload n_rowid mx mn us : Nat) : Nat :=
  let r := payload_overflows len_payload mx mn us
  let inline_plus_ptr := if r.1 then r.2 else len_payload
  match pt with
  | .TableInterior => 4 + n_rowid
  | .TableLeaf => n_payload + n_rowid + inline_plus_ptr
  | .IndexInterior => 4 + n_payload + inline_plus_ptr
  | .IndexLeaf => n_payload + inline_plus_ptr

/-- C4 counterexample: on a concrete index-leaf page with one cell holding a
3-byte payload (no overflow), the claim says the region length equals the
encoding size — payload-size varint (1 byte) plus payload (3 bytes) = 4 —
but `cell_get_raw_region` returns 8: the index branches add 4 extra bytes
in both the overflow and the non-overflow case. -/
theorem C4_cell_region_counterexample :
    PageContent.cell_get_raw_region
      ⟨0, [10, 0, 0, 0, 1, 0, 0, 0, 0, 10, 3, 7, 7, 7]⟩ 0 100 50 4096 =
      some (10, 8) ∧
    specCellSize .IndexLeaf 3 1 0 100 50 4096 = 4 ∧ (8 : Nat) ≠ 4 :=
  ⟨by decide, by decide, by decide⟩

/-- C4 amended: for every page and cell index `idx < cell_count` whose
varints parse, the length returned by `cell_get_raw_region` equals the
encoding size per the variant (`specCellSize`) for the table variants, and
the encoding size plus 4 extra bytes for the index variants (interior and
leaf, in both the overflow and the non-overflow case). -/
theorem C4_cell_region_amended
    (p : PageContent) (idx mx mn us : Nat) (pt : PageType)
    (hpt : p.maybe_page_type = some pt)
    (hidx : idx < p.cell_count)
    (cp : Nat) (hcp : cp = p.read_u16_no_offset (p.offset + header_size pt + idx * 2)) :
    (∀ lp np, pt = .IndexInterior →
      read_varint (p.buffer.drop (cp + 4)) = .ok lp np →
      p.cell_get_raw_region idx mx mn us =
        some (cp, specCellSize .IndexInterior lp np 0 mx mn us + 4)) ∧
    (∀ rv nr, pt = .TableInterior →
      read_varint (p.buffer.drop (cp + 4)) = .ok rv nr →
      p.cell_get_raw_region idx mx mn us =
        some (cp, specCellSize .TableInterior 0 0 nr mx mn us)) ∧
    (∀ lp np, pt = .IndexLeaf →
      read_varint (p.buffer.drop cp) = .ok lp np →
      p.cell_get_raw_region idx mx mn us =
        some (cp, specCellSize .IndexLeaf lp np 0 mx mn us + 4)) ∧
    (∀ lp np rv nr, pt = .TableLeaf →
      read_varint (p.buffer.drop cp) = .ok lp np →
      read_varint (p.buffer.drop (cp + np)) = .ok rv nr →
      p.cell_get_raw_region idx mx mn us =
        some (cp, specCellSize .TableLeaf lp np nr mx mn us)) := by
  refine ⟨?_, ?_, ?_, ?_⟩
  · intro lp np hpteq hrv
    subst hpteq
    unfold PageContent.cell_get_raw_region
    rw [hpt]
    simp only [if_pos hidx, ← hcp, hrv]
    cases hov : (payload_overflows lp mx mn us).1 <;>
      simp [hov, specCellSize] <;> omega
  · intro rv nr hpteq hrv
    subst hpteq
    unfold PageContent.cell_get_raw_region
    rw [hpt]
    simp only [if_pos hidx, ← hcp, hrv]
    simp [specCellSize]
  · intro lp np hpteq hrv
    subst hpteq
    unfold PageContent.cell_get_raw_region
    rw [hpt]
    simp only [if_pos hidx, ← hcp, hrv]
    cases hov : (payload_overflows lp mx mn us).1 <;>
      simp [hov, specCellSize] <;> omega
  · intro lp np rv nr hpteq hrv1 hrv2
    subst hpteq
    unfold PageContent.cell_get_raw_region
    rw [hpt]
    simp only [if_pos hidx, ← hcp, hrv1, hrv2]
    cases hov : (payload_overflows lp mx mn us).1 <;>
      simp [hov, specCellSize] <;> omega

/-- Witness for the C4 amended theorem: the index-leaf conjunct applied to
the concrete page of the counterexample. -/
theorem C4_cell_region_amended_witness :
    PageContent.cell_get_raw_region
      ⟨0, [10, 0, 0, 0, 1, 0, 0, 0, 0, 10, 3, 7, 7, 7]⟩ 0 100 50 4096 =
      some (10, specCellSize .IndexLeaf 3 1 0 100 50 4096 + 4) :=
  ((C4_cell_region_amended ⟨0, [10, 0, 0, 0, 1, 0, 0, 0, 0, 10, 3, 7, 7, 7]⟩
    0 100 50 4096 .IndexLeaf (by decide) (by decide) 10 (by decide)).2.2.1)
    3 1 rfl (by decide)

/-! ## WAL codec (`checksum_wal`, `begin_write_wal_frame`) -/

/-- The WAL header fields that `begin_write_wal_frame` reads.  `page_size`
is carried only to state that frame construction ignores it. -/
structure WalHeader where
  magic : Nat
  page_size : Nat
  salt_1 : Nat
  salt_2 : Nat
deriving DecidableEq, Repr

/-- `u32::from_ne_bytes`: reassemble four bytes in the host's native order;
`hostBE` is `cfg!(target_endian = "big")`. -/
def word_ne (hostBE : Bool) (b0 b1 b2 b3 : Nat) : Nat :=
  if hostBE then ((b0 * 256 + b1) * 256 + b2) * 256 + b3
  else ((b3 * 256 + b2) * 256 + b1) * 256 + b0

/-- `u32::swap_bytes`. -/
def swap32 (w : Nat) : Nat :=
  w % 256 * 2 ^ 24 + w / 2 ^ 8 % 256 * 2 ^ 16 +
  w / 2 ^ 16 % 256 * 2 ^ 8 + w / 2 ^ 24 % 256

/-- `checksum_wal` from the source: the Fibonacci-weighted rolling checksum
over u32 pairs with wrapping 32-bit addition.  Words are read with
`from_ne_bytes`, and byte-swapped first when `native_endian` is false.  The
source asserts the length is a multiple of 8 (panicking otherwise); a final
chunk of fewer than 8 bytes is therefore unreachable in the source and left
unread here. -/
def checksum_wal (hostBE native_endian : Bool) :
    List Nat → Nat → Nat → Nat × Nat
  | b0 :: b1 :: b2 :: b3 :: b4 :: b5 :: b6 :: b7 :: rest, s0, s1 =>
    let v0 := if native_endian then word_ne hostBE b0 b1 b2 b3
              else swap32 (word_ne hostBE b0 b1 b2 b3)
    let v1 := if native_endian then word_ne hostBE b4 b5 b6 b7
              else swap32 (word_ne hostBE b4 b5 b6 b7)
    let t0 := (s0 + (v0 + s1) % U32) % U32
    let t1 := (s1 + (v1 + t0) % U32) % U32
    checksum_wal hostBE native_endian rest t0 t1
  | _, s0, s1 => (s0, s1)

/-- `let expects_be = wal_header.magic & 1;`
`let use_native_endian = cfg!(target_endian = "big") as u32 == expects_be;` -/
def use_native_endian (magic : Nat) (hostBE : Bool) : Bool :=
  (if hostBE then 1 else 0) == magic % 2

/-- The pure content of `begin_write_wal_frame`: build the frame bytes — a
24-byte header (page number, db size, the two salts, the final checksum,
all big-endian) followed by the page content — and return the checksum pair
that the function returns as the seed for the next frame.  The source
zero-pads and checksums a fixed region of exactly 4096 bytes after the
header: when the content is shorter than 4096 bytes the zero-fill indexes
past the allocated buffer (`content.len() + 24` bytes) and panics, modelled
as `none`; when it is longer, only the first 4096 bytes are checksummed. -/
def begin_write_wal_frame_bytes (hostBE : Bool) (page_id db_size : Nat)
    (content : List Nat) (w : WalHeader) (s : Nat × Nat) :
    Option (List Nat × (Nat × Nat)) :=
  if content.length < 4096 then none
  else
    let un := use_native_endian w.magic hostBE
    let hdr8 := be32 page_id ++ be32 db_size
    let hc := checksum_wal hostBE un hdr8 s.1 s.2
    let fc := checksum_wal hostBE un (content.take 4096) hc.1 hc.2
    some (hdr8 ++ (be32 w.salt_1 ++ (be32 w.salt_2 ++
      (be32 fc.1 ++ (be32 fc.2 ++ content)))), fc)

theorem take_chunk (c rest : List Nat) (n L q : Nat) (hL : c.length = L)
    (hq : n = L + q) : (c ++ rest).take n = c ++ rest.take q := by
  rw [List.take_append_eq_append_take, List.take_of_length_le (by omega)]
  have h2 : n - c.length = q := by omega
  rw [h2]

/-- C5: for a WAL frame written by `begin_write_wal_frame` from a 4096-byte
page with prior cumulative checksum `s`, the stored checksum in bytes
16..24 of the frame header equals
`checksum(page_bytes, start = checksum(frame_header_bytes[0..8], start = s))`,
is stored big-endian, and is also the pair the function returns as the
seed for the next frame. -/
theorem C5_wal_frame_checksum (hostBE : Bool) (page_id db_size : Nat)
    (content : List Nat) (w : WalHeader) (s : Nat × Nat)
    (hlen : content.length = 4096) :
    ∃ frame hc cs,
      hc = checksum_wal hostBE (use_native_endian w.magic hostBE)
        (frame.take 8) s.1 s.2 ∧
      cs = checksum_wal hostBE (use_native_endian w.magic hostBE)
        content hc.1 hc.2 ∧
      begin_write_wal_frame_bytes hostBE page_id db_size content w s =
        some (frame, cs) ∧
      frame.take 8 = be32 page_id ++ be32 db_size ∧
      (frame.drop 16).take 8 = be32 cs.1 ++ be32 cs.2 := by
  have htake : content.take 4096 = content := List.take_of_length_le (by omega)
  have hlen8 : (be32 page_id ++ be32 db_size).length = 8 := by simp [be32]
  refine ⟨(be32 page_id ++ be32 db_size) ++ (be32 w.salt_1 ++ (be32 w.salt_2 ++
      (be32 (checksum_wal hostBE (use_native_endian w.magic hostBE) content
        (checksum_wal hostBE (use_native_endian w.magic hostBE)
          (be32 page_id ++ be32 db_size) s.1 s.2).1
        (checksum_wal hostBE (use_native_endian w.magic hostBE)
          (be32 page_id ++ be32 db_size) s.1 s.2).2).1 ++
      (be32 (checksum_wal hostBE (use_native_endian w.magic hostBE) content
        (checksum_wal hostBE (use_native_endian w.magic hostBE)
          (be32 page_id ++ be32 db_size) s.1 s.2).1
        (checksum_wal hostBE (use_native_endian w.magic hostBE)
          (be32 page_id ++ be32 db_size) s.1 s.2).2).2 ++ content)))),
    checksum_wal hostBE (use_native_endian w.magic hostBE)
      (be32 page_id ++ be32 db_size) s.1 s.2,
    checksum_wal hostBE (use_native_endian w.magic hostBE) content
      (checksum_wal hostBE (use_native_endian w.magic hostBE)
        (be32 page_id ++ be32 db_size) s.1 s.2).1
      (checksum_wal hostBE (use_native_endian w.magic hostBE)
        (be32 page_id ++ be32 db_size) s.1 s.2).2,
    ?_, rfl, ?_, ?_, ?_⟩
  · rw [List.take_left' hlen8]
  · unfold begin_write_wal_frame_bytes
    rw [if_neg (by omega), htake]
  · exact List.take_left' hlen8
  · rw [drop_skip (be32 page_id ++ be32 db_size) _ 16 8 8 hlen8 (by norm_num),
      drop_skip (be32 w.salt_1) _ 8 4 4 rfl (by norm_num),
      drop_skip (be32 w.salt_2) _ 4 4 0 rfl (by norm_num),
      List.drop_zero,
      take_chunk (be32 (checksum_wal hostBE
        (use_native_endian w.magic hostBE) content
        (checksum_wal hostBE (use_native_endian w.magic hostBE)
          (be32 page_id ++ be32 db_size) s.1 s.2).1
        (checksum_wal hostBE (use_native_endian w.magic hostBE)
          (be32 page_id ++ be32 db_size) s.1 s.2).2).1) _ 8 4 4 rfl (by norm_num),
      List.take_left' (show (be32 (checksum_wal hostBE
        (use_native_endian w.magic hostBE) content
        (checksum_wal hostBE (use_native_endian w.magic hostBE)
          (be32 page_id ++ be32 db_size) s.1 s.2).1
        (checksum_wal hostBE (use_native_endian w.magic hostBE)
          (be32 page_id ++ be32 db_size) s.1 s.2).2).2).length = 4 from rfl)]

/-- Witness for C5 at a concrete 4096-byte page of zeros. -/
theorem C5_wal_frame_checksum_witness :
    ∃ frame hc cs,
      hc = checksum_wal false (use_native_endian 0x377f0682 false)
        (frame.take 8) (0, 0).1 (0, 0).2 ∧
      cs = checksum_wal false (use_native_endian 0x377f0682 false)
        (List.replicate 4096 0) hc.1 hc.2 ∧
      begin_write_wal_frame_bytes false 1 1 (List.replicate 4096 0)
        ⟨0x377f0682, 4096, 7, 9⟩ (0, 0) = some (frame, cs) ∧
      frame.take 8 = be32 1 ++ be32 1 ∧
      (frame.drop 16).take 8 = be32 cs.1 ++ be32 cs.2 :=
  C5_wal_frame_checksum false 1 1 (List.replicate 4096 0)
    ⟨0x377f0682, 4096, 7, 9⟩ (0, 0) (List.length_replicate 4096 0)

/-- Byte-swapping the native-order reading of four bytes equals reading
them in the opposite host order. -/
theorem swap32_word_ne (hostBE : Bool) (b0 b1 b2 b3 : Nat)
    (h0 : b0 < 256) (h1 : b1 < 256) (h2 : b2 < 256) (h3 : b3 < 256) :
    swap32 (word_ne hostBE b0 b1 b2 b3) = word_ne (!hostBE) b0 b1 b2 b3 := by
  cases hostBE with
  | false =>
    show swap32 (((b3 * 256 + b2) * 256 + b1) * 256 + b0)
        = ((b0 * 256 + b1) * 256 + b2) * 256 + b3
    have e0 : (((b3 * 256 + b2) * 256 + b1) * 256 + b0) % 256 = b0 := by omega
    have e1 : (((b3 * 256 + b2) * 256 + b1) * 256 + b0) / 2 ^ 8 % 256 = b1 := by omega
    have e2 : (((b3 * 256 + b2) * 256 + b1) * 256 + b0) / 2 ^ 16 % 256 = b2 := by omega
    have e3 : (((b3 * 256 + b2) * 256 + b1) * 256 + b0) / 2 ^ 24 % 256 = b3 := by omega
    unfold swap32
    rw [e0, e1, e2, e3]
    ring
  | true =>
    show swap32 (((b0 * 256 + b1) * 256 + b2) * 256 + b3)
        = ((b3 * 256 + b2) * 256 + b1) * 256 + b0
    have e0 : (((b0 * 256 + b1) * 256 + b2) * 256 + b3) % 256 = b3 := by omega
    have e1 : (((b0 * 256 + b1) * 256 + b2) * 256 + b3) / 2 ^ 8 % 256 = b2 := by omega
    have e2 : (((b0 * 256 + b1) * 256 + b2) * 256 + b3) / 2 ^ 16 % 256 = b1 := by omega
    have e3 : (((b0 * 256 + b1) * 256 + b2) * 256 + b3) / 2 ^ 24 % 256 = b0 := by omega
    unfold swap32
    rw [e0, e1, e2, e3]
    ring

/-- The non-native checksum path equals the native path computed as if the
host had the opposite endianness: every 4-byte word is byte-swapped before
accumulation. -/
theorem checksum_wal_swap :
    ∀ (n : Nat) (buf : List Nat), buf.length ≤ n →
    ∀ (s0 s1 : Nat) (hostBE : Bool), (∀ b ∈ buf, b < 256) →
    checksum_wal hostBE false buf s0 s1 = checksum_wal (!hostBE) true buf s0 s1 := by
  intro n
  induction n with
  | zero =>
    intro buf hn s0 s1 hostBE _
    have : buf = [] := List.length_eq_zero.mp (by omega)
    subst this
    rfl
  | succ n ih =>
    intro buf hn s0 s1 hostBE hb
    match buf with
    | [] => rfl
    | [b0] => rfl
    | [b0, b1] => rfl
    | [b0, b1, b2] => rfl
    | [b0, b1, b2, b3] => rfl
    | [b0, b1, b2, b3, b4] => rfl
    | [b0, b1, b2, b3, b4, b5] => rfl
    | [b0, b1, b2, b3, b4, b5, b6] => rfl
    | b0 :: b1 :: b2 :: b3 :: b4 :: b5 :: b6 :: b7 :: rest =>
      have hmem : ∀ i ∈ [b0, b1, b2, b3, b4, b5, b6, b7], i < 256 := by
        intro i hi
        apply hb
        simp only [List.mem_cons, List.not_mem_nil, or_false] at hi
        rcases hi with h | h | h | h | h | h | h | h <;> subst h <;> simp
      simp only [checksum_wal, Bool.false_eq_true, if_neg, if_false]
      rw [swap32_word_ne hostBE b0 b1 b2 b3 (hmem b0 (by simp)) (hmem b1 (by simp))
          (hmem b2 (by simp)) (hmem b3 (by simp)),
        swap32_word_ne hostBE b4 b5 b6 b7 (hmem b4 (by simp)) (hmem b5 (by simp))
          (hmem b6 (by simp)) (hmem b7 (by simp))]
      simp only [if_true]
      apply ih
      · simp at hn ⊢
        omega
      · intro b hbm
        apply hb
        simp [hbm]

/-- C6: in the WAL checksum as invoked by `begin_write_wal_frame`, each u32
word of the input is interpreted in native byte order iff the WAL magic's
least-significant bit equals the host-is-big-endian flag; otherwise every
4-byte word is byte-swapped before the Fibonacci-weighted accumulation
(equivalently, the non-native path equals the native path on the
opposite-endian host).  In particular, with magic `0x377f0682` on a
big-endian host each u32 is byte-swapped (the path equals native reading on
a little-endian host), and with magic `0x377f0683` on a big-endian host it
is not. -/
theorem C6_checksum_endianness :
    (∀ (magic : Nat) (hostBE : Bool),
      use_native_endian magic hostBE = true ↔
        magic % 2 = (if hostBE then 1 else 0)) ∧
    (∀ (buf : List Nat) (s0 s1 : Nat) (hostBE : Bool),
      (∀ b ∈ buf, b < 256) →
      checksum_wal hostBE false buf s0 s1 = checksum_wal (!hostBE) true buf s0 s1) ∧
    use_native_endian 0x377f0682 true = false ∧
    use_native_endian 0x377f0683 true = true ∧
    (∀ (buf : List Nat) (s0 s1 : Nat), (∀ b ∈ buf, b < 256) →
      checksum_wal true (use_native_endian 0x377f0682 true) buf s0 s1 =
        checksum_wal false true buf s0 s1) ∧
    (∀ (buf : List Nat) (s0 s1 : Nat),
      checksum_wal true (use_native_endian 0x377f0683 true) buf s0 s1 =
        checksum_wal true true buf s0 s1) := by
  have hswap := fun buf s0 s1 hostBE hb =>
    checksum_wal_swap buf.length buf (le_refl _) s0 s1 hostBE hb
  refine ⟨?_, hswap, by decide, by decide, ?_, ?_⟩
  · intro magic hostBE
    unfold use_native_endian
    cases hostBE with
    | false =>
      show ((0 : Nat) == magic % 2) = true ↔ magic % 2 = 0
      simp only [beq_iff_eq]
      exact eq_comm
    | true =>
      show ((1 : Nat) == magic % 2) = true ↔ magic % 2 = 1
      simp only [beq_iff_eq]
      exact eq_comm
  · intro buf s0 s1 hb
    have h1 : use_native_endian 0x377f0682 true = false := by decide
    rw [h1]
    have h2 := hswap buf s0 s1 true hb
    simpa only [Bool.not_true] using h2
  · intro buf s0 s1
    have h1 : use_native_endian 0x377f0683 true = true := by decide
    rw [h1]

/-- Witness for C6: the quantified parts instantiated at a concrete
byte buffer. -/
theorem C6_checksum_endianness_witness :
    checksum_wal true false [1, 2, 3, 4, 5, 6, 7, 8] 0 0 =
      checksum_wal false true [1, 2, 3, 4, 5, 6, 7, 8] 0 0 ∧
    checksum_wal true (use_native_endian 0x377f0682 true) [1, 2, 3, 4, 5, 6, 7, 8] 0 0 =
      checksum_wal false true [1, 2, 3, 4, 5, 6, 7, 8] 0 0 :=
  ⟨by
    have h := C6_checksum_endianness.2.1 [1, 2, 3, 4, 5, 6, 7, 8] 0 0 true (by decide)
    simpa only [Bool.not_true] using h,
   C6_checksum_endianness.2.2.2.2.1 [1, 2, 3, 4, 5, 6, 7, 8] 0 0 (by decide)⟩

/-- C10: `begin_write_wal_frame` always checksums (and would zero-pad) a
fixed data region of exactly 4096 bytes after the 24-byte frame header,
independent of `wal_header.page_size`; its buffer indexing is in-bounds
(panic-free) exactly when the page content buffer is at least 4096 bytes
— so the precondition for correct frame construction is a page size of
exactly 4096. -/
theorem C10_wal_frame_fixed_region (hostBE : Bool) (page_id db_size : Nat)
    (content : List Nat) (w : WalHeader) (s : Nat × Nat) :
    ((begin_write_wal_frame_bytes hostBE page_id db_size content w s).isSome ↔
      4096 ≤ content.length) ∧
    (∀ ps' : Nat,
      begin_write_wal_frame_bytes hostBE page_id db_size content
        { w with page_size := ps' } s =
      begin_write_wal_frame_bytes hostBE page_id db_size content w s) ∧
    (∀ extra : List Nat, 4096 ≤ content.length →
      Option.map Prod.snd (begin_write_wal_frame_bytes hostBE page_id db_size
        (content ++ extra) w s) =
      Option.map Prod.snd (begin_write_wal_frame_bytes hostBE page_id db_size
        content w s)) := by
  refine ⟨?_, ?_, ?_⟩
  · unfold begin_write_wal_frame_bytes
    by_cases h : content.length < 4096
    · rw [if_pos h]
      simp
      omega
    · rw [if_neg h]
      simp
      omega
  · intro ps'
    rfl
  · intro extra hge
    have hlen2 : ¬((content ++ extra).length < 4096) := by
      simp only [List.length_append]
      omega
    have htk : (content ++ extra).take 4096 = content.take 4096 := by
      rw [List.take_append_eq_append_take]
      have h0 : 4096 - content.length = 0 := by omega
      rw [h0, List.take_zero, List.append_nil]
    unfold begin_write_wal_frame_bytes
    rw [if_neg hlen2, if_neg (by omega), htk]
    simp

/-- Witness for C10's third conjunct at concrete contents. -/
theorem C10_wal_frame_fixed_region_witness :
    Option.map Prod.snd (begin_write_wal_frame_bytes false 1 0
      (List.replicate 4096 0 ++ List.replicate 8 7) ⟨0x377f0682, 512, 1, 2⟩ (0, 0)) =
    Option.map Prod.snd (begin_write_wal_frame_bytes false 1 0
      (List.replicate 4096 0) ⟨0x377f0682, 512, 1, 2⟩ (0, 0)) :=
  (C10_wal_frame_fixed_region false 1 0 (List.replicate 4096 0)
    ⟨0x377f0682, 512, 1, 2⟩ (0, 0)).2.2 (List.replicate 8 7)
    (le_of_eq (List.length_replicate 4096 0).symm)

end Ondisk
